import Mathlib

/-!
# Verification of the `generic-pool` resource pool (src/src/generic-pool.ts)

This file gives a shallow embedding of the pool's orchestration core as an
explicit state-passing model and proves the frozen claims about it.

Modelling conventions:
* JavaScript objects with reference identity (pooled resources, resource
  requests) are modelled by natural-number identities drawn from fresh
  counters `nextResId` / `nextReqId`.  The source keys `_resourceLoans` by
  the factory-created `obj`, which has reference identity, so a resource id
  doubles as its `obj`.
* `Set<Promise<...>>` fields whose elements are opaque in-flight operations
  (`_factoryCreateOperations`, `_factoryDestroyOperations`) are modelled by
  their size, which is the only observable the source reads from them.
  `Set.add` of a fresh element is an increment, settlement a decrement.
* Mutable `PooledResource.state` / `Deferred` state live in association
  lists `resState` / `reqState` keyed by identity.
* The asynchronous completions (factory.create settling, factory.destroy
  settling, factory.validate settling, a request timeout firing, the
  queue's timeout-rejection handler splicing a node) are explicit steps of
  a transition relation `Step`, following the source's single-threaded
  cooperative scheduling model: each step is one of the synchronous blocks
  the source runs between suspension points.
* Resolving a request's promise is recorded in `resolvedLog` (request id,
  resource id); emitted events are recorded in `events`.
-/

/-- Lifecycle states of a pooled resource (source `PooledResourceStateEnum`). -/
inductive PooledResourceState where
  | ALLOCATED
  | IDLE
  | INVALID
  | RETURNING
  | VALIDATION
deriving DecidableEq, Repr

/-- States of a `Deferred` / `ResourceRequest` promise. -/
inductive DeferredState where
  | PENDING
  | FULFILLED
  | REJECTED
deriving DecidableEq, Repr

/-- The error kinds the pool's public operations reject with. -/
inductive PoolError where
  /-- `new Error('pool is draining and cannot accept work')` -/
  | poolDraining
  /-- `new Error('max waitingClients count exceeded')` -/
  | maxWaitersExceeded
  /-- `new Error('Resource not currently part of this pool')` -/
  | resourceNotInPool
deriving DecidableEq, Repr

/-- Events the pool emits (source `FACTORY_CREATE_ERROR`, `FACTORY_DESTROY_ERROR`). -/
inductive PoolEvent where
  | factoryCreateError
  | factoryDestroyError
deriving DecidableEq, Repr

/-! ## Association lists for mutable per-identity state -/

/-- Update (or insert) the binding of key `k` in an association list. -/
def assocSet {α : Type} : List (Nat × α) → Nat → α → List (Nat × α)
  | [], k, v => [(k, v)]
  | (k₀, v₀) :: rest, k, v =>
      if k₀ = k then (k, v) :: rest else (k₀, v₀) :: assocSet rest k v

/-- Look up the binding of key `k` in an association list. -/
def assocGet {α : Type} (m : List (Nat × α)) (k : Nat) : Option α :=
  (m.find? (fun e => e.1 = k)).map (·.2)

theorem assocGet_nil {α : Type} (k : Nat) : assocGet ([] : List (Nat × α)) k = none := rfl

theorem assocGet_set_self {α : Type} (m : List (Nat × α)) (k : Nat) (v : α) :
    assocGet (assocSet m k v) k = some v := by
  induction m with
  | nil => simp [assocSet, assocGet, List.find?]
  | cons e rest ih =>
      by_cases h : e.1 = k
      · simp [assocSet, h, assocGet, List.find?]
      · simp only [assocSet]
        rw [if_neg h]
        simpa [assocGet, List.find?, h] using ih

theorem assocGet_set_ne {α : Type} (m : List (Nat × α)) (k k' : Nat) (v : α)
    (h : k' ≠ k) : assocGet (assocSet m k v) k' = assocGet m k' := by
  have hk : k ≠ k' := Ne.symm h
  induction m with
  | nil => simp [assocSet, assocGet, List.find?, hk]
  | cons e rest ih =>
      by_cases he : e.1 = k
      · subst he
        simp [assocSet, assocGet, List.find?, hk]
      · simp only [assocSet]
        rw [if_neg he]
        by_cases he' : e.1 = k'
        · simp [assocGet, List.find?, he']
        · simpa [assocGet, List.find?, he'] using ih

/-- All keys of an association list are below a bound. -/
def KeysBelow {α : Type} (m : List (Nat × α)) (n : Nat) : Prop :=
  ∀ p ∈ m, p.1 < n

theorem keysBelow_set {α : Type} {m : List (Nat × α)} {n k : Nat} {v : α}
    (hm : KeysBelow m n) (hk : k < n) : KeysBelow (assocSet m k v) n := by
  induction m with
  | nil => intro p hp; simp [assocSet] at hp; subst hp; exact hk
  | cons e rest ih =>
      intro p hp
      simp only [assocSet] at hp
      by_cases he : e.1 = k
      · rw [if_pos he] at hp
        rcases List.mem_cons.1 hp with h | h
        · subst h; exact hk
        · exact hm p (List.mem_cons_of_mem _ h)
      · rw [if_neg he] at hp
        rcases List.mem_cons.1 hp with h | h
        · subst h; exact hm e (List.mem_cons_self _ _)
        · exact ih (fun q hq => hm q (List.mem_cons_of_mem _ hq)) p h

theorem keysBelow_mono {α : Type} {m : List (Nat × α)} {n n' : Nat}
    (hm : KeysBelow m n) (h : n ≤ n') : KeysBelow m n' :=
  fun p hp => lt_of_lt_of_le (hm p hp) h

theorem assocGet_eq_none_of_keysBelow {α : Type} {m : List (Nat × α)} {n k : Nat}
    (hm : KeysBelow m n) (hk : n ≤ k) : assocGet m k = none := by
  induction m with
  | nil => rfl
  | cons e rest ih =>
      have he : e.1 ≠ k := by
        intro h
        exact absurd (hm e (List.mem_cons_self _ _)) (by omega)
      simpa [assocGet, List.find?, he] using
        ih (fun p hp => hm p (List.mem_cons_of_mem _ hp))

/-! ## The priority queue (source `PriorityQueue` over `Queue`)

`_slots` is an array of FIFO queues; we model it as a list of lists of
request ids (front of each inner list = head of that FIFO queue).  `push`
appends at the slot's tail, `dequeue` shifts from the first non-empty slot.
-/

/-- `PriorityQueue.enqueue`'s slot update: append `rid` at the tail of slot `i`. -/
def pushAt : List (List Nat) → Nat → Nat → List (List Nat)
  | [], _, _ => []
  | q :: rest, 0, rid => (q ++ [rid]) :: rest
  | q :: rest, i + 1, rid => q :: pushAt rest i rid

/-- `PriorityQueue.dequeue`: shift from the first non-empty slot, returning the
dequeued request id and the updated slots. -/
def dequeueSlots : List (List Nat) → Option (Nat × List (List Nat))
  | [] => none
  | [] :: rest =>
      match dequeueSlots rest with
      | none => none
      | some (rid, rest') => some (rid, [] :: rest')
  | (rid :: q) :: rest => some (rid, q :: rest)

/-- `PriorityQueue.enqueue`'s priority normalization: a missing or zero
priority goes to slot 0; a non-zero priority below 0 or at/above the size is
clamped to the last slot. -/
def normPriority (size : Nat) (p : Int) : Nat :=
  if p = 0 then 0
  else if p < 0 ∨ (size : Int) ≤ p then size - 1
  else p.toNat

theorem normPriority_lt (size : Nat) (p : Int) (h : 0 < size) :
    normPriority size p < size := by
  unfold normPriority
  split
  · exact h
  · split
    · omega
    · rename_i h1 h2
      push_neg at h2
      omega

theorem dequeueSlots_join_none {sl : List (List Nat)}
    (h : dequeueSlots sl = none) : sl.flatten = [] := by
  induction sl with
  | nil => rfl
  | cons q rest ih =>
      match q with
      | [] =>
          simp only [dequeueSlots] at h
          match hr : dequeueSlots rest with
          | none => simpa [List.flatten] using ih hr
          | some (rid, rest') => rw [hr] at h; exact absurd h (by simp)
      | rid :: q' => exact absurd h (by simp [dequeueSlots])

theorem dequeueSlots_join_some {sl sl' : List (List Nat)} {rid : Nat}
    (h : dequeueSlots sl = some (rid, sl')) : sl.flatten = rid :: sl'.flatten := by
  induction sl generalizing sl' with
  | nil => exact absurd h (by simp [dequeueSlots])
  | cons q rest ih =>
      match q with
      | [] =>
          simp only [dequeueSlots] at h
          match hr : dequeueSlots rest with
          | none => rw [hr] at h; exact absurd h (by simp)
          | some (rid₀, rest') =>
              rw [hr] at h
              simp only [Option.some.injEq, Prod.mk.injEq] at h
              obtain ⟨h1, h2⟩ := h
              subst h1
              subst h2
              simpa [List.flatten] using ih hr
      | r :: q' =>
          simp only [dequeueSlots, Option.some.injEq, Prod.mk.injEq] at h
          obtain ⟨h1, h2⟩ := h
          subst h1
          subst h2
          simp [List.flatten]

theorem dequeueSlots_length {sl sl' : List (List Nat)} {rid : Nat}
    (h : dequeueSlots sl = some (rid, sl')) : sl'.length = sl.length := by
  induction sl generalizing sl' with
  | nil => exact absurd h (by simp [dequeueSlots])
  | cons q rest ih =>
      match q with
      | [] =>
          simp only [dequeueSlots] at h
          match hr : dequeueSlots rest with
          | none => rw [hr] at h; exact absurd h (by simp)
          | some (rid₀, rest') =>
              rw [hr] at h
              simp only [Option.some.injEq, Prod.mk.injEq] at h
              obtain ⟨h1, h2⟩ := h
              subst h1
              subst h2
              simpa using ih hr
      | r :: q' =>
          simp only [dequeueSlots, Option.some.injEq, Prod.mk.injEq] at h
          obtain ⟨h1, h2⟩ := h
          subst h2
          simp

theorem pushAt_length (sl : List (List Nat)) (i rid : Nat) :
    (pushAt sl i rid).length = sl.length := by
  induction sl generalizing i with
  | nil => rfl
  | cons q rest ih =>
      match i with
      | 0 => rfl
      | j + 1 => simpa [pushAt] using ih j

theorem pushAt_join (sl : List (List Nat)) (i rid : Nat) (h : i < sl.length) :
    ∃ a b, sl.flatten = a ++ b ∧ (pushAt sl i rid).flatten = a ++ rid :: b := by
  induction sl generalizing i with
  | nil => simp at h
  | cons q rest ih =>
      match i with
      | 0 =>
          refine ⟨q, rest.flatten, by simp [List.flatten], ?_⟩
          simp [pushAt, List.flatten]
      | j + 1 =>
          obtain ⟨a, b, h1, h2⟩ := ih j (by simpa using h)
          exact ⟨q ++ a, b, by simp [List.flatten, h1], by simp [pushAt, List.flatten, h2]⟩

/-! ## Pool configuration and state -/

/-- The normalized pool configuration fields consulted by the modelled
operations (a subset of source `PoolOptions`; timeout durations only gate
timer scheduling and are not needed once timeouts are explicit steps). -/
structure PoolConfig where
  max : Nat
  min : Nat
  maxWaitingClients : Option Nat
  testOnBorrow : Bool
  fifo : Bool
  priorityRange : Nat
  autostart : Bool
deriving DecidableEq, Repr

/-- The pool's mutable state (source class `Pool<T>`).  Resources and
requests are identified by `Nat`; see the module docstring for conventions. -/
structure Pool where
  config : PoolConfig
  draining : Bool
  started : Bool
  /-- `_waitingClientsQueue`: priority slots of request ids, FIFO front first. -/
  waitingClientsQueue : List (List Nat)
  /-- `_factoryCreateOperations.size`: number of in-flight `factory.create` calls. -/
  factoryCreateOperations : Nat
  /-- `_factoryDestroyOperations.size`: number of in-flight `factory.destroy` calls. -/
  factoryDestroyOperations : Nat
  /-- `_availableObjects`: deque of idle pooled-resource ids, head first. -/
  availableObjects : List Nat
  /-- `_testOnBorrowResources`: ids of resources under borrow validation. -/
  testOnBorrowResources : List Nat
  /-- `_testOnReturnResources`: ids of resources under return validation. -/
  testOnReturnResources : List Nat
  /-- `_allObjects`: ids of all live pooled resources. -/
  allObjects : List Nat
  /-- Keys of `_resourceLoans`: ids of currently borrowed resources. -/
  resourceLoans : List Nat
  /-- Fresh-id counter for pooled resources. -/
  nextResId : Nat
  /-- Fresh-id counter for resource requests. -/
  nextReqId : Nat
  /-- `PooledResource.state` per resource id. -/
  resState : List (Nat × PooledResourceState)
  /-- `Deferred` state per request id. -/
  reqState : List (Nat × DeferredState)
  /-- History of resolved requests: (request id, resource id it got), in order. -/
  resolvedLog : List (Nat × Nat)
  /-- Events emitted so far, in order. -/
  events : List PoolEvent
deriving Repr

/-- JS `Set.add`: appends the element unless already present. -/
def setAdd (l : List Nat) (r : Nat) : List Nat := if r ∈ l then l else l ++ [r]

/-- Protected getter `_count = _allObjects.size + _factoryCreateOperations.size`. -/
def Pool.count (s : Pool) : Nat := s.allObjects.length + s.factoryCreateOperations

/-- Getter `spareResourceCapacity = max - (_allObjects.size + _factoryCreateOperations.size)`
(a JS number, possibly negative, hence `Int`). -/
def Pool.spareResourceCapacity (s : Pool) : Int := (s.config.max : Int) - (s.count : Int)

/-- Getter `_potentiallyAllocableResourceCount`. -/
def Pool.potentiallyAllocableResourceCount (s : Pool) : Nat :=
  s.availableObjects.length + s.testOnBorrowResources.length +
    s.testOnReturnResources.length + s.factoryCreateOperations

/-- `PriorityQueue.length`: total number of waiting clients. -/
def Pool.queueLength (s : Pool) : Nat := s.waitingClientsQueue.flatten.length

/-- Getter `size` (returns `_count`). -/
def Pool.size (s : Pool) : Nat := s.count

/-- Getter `available`. -/
def Pool.available (s : Pool) : Nat := s.availableObjects.length

/-- Getter `borrowed` (`_resourceLoans.size`). -/
def Pool.borrowed (s : Pool) : Nat := s.resourceLoans.length

/-- Getter `pending` (`_waitingClientsQueue.length`). -/
def Pool.pending (s : Pool) : Nat := s.queueLength

/-- Update the lifecycle state of a pooled resource. -/
def Pool.setRes (s : Pool) (r : Nat) (st : PooledResourceState) : Pool :=
  { s with resState := assocSet s.resState r st }

/-- Update the deferred state of a request. -/
def Pool.setReq (s : Pool) (rid : Nat) (st : DeferredState) : Pool :=
  { s with reqState := assocSet s.reqState rid st }

/-- Look up a request's deferred state. -/
def Pool.getReq (s : Pool) (rid : Nat) : Option DeferredState := assocGet s.reqState rid

/-- `_addPooledResourceToAvailableObjects`: `pooledResource.idle()` then push
(fifo) or unshift (lifo) onto `_availableObjects`. -/
def Pool.addPooledResourceToAvailableObjects (s : Pool) (r : Nat) : Pool :=
  let s := s.setRes r .IDLE
  if s.config.fifo then { s with availableObjects := s.availableObjects ++ [r] }
  else { s with availableObjects := r :: s.availableObjects }

/-- One `_createResource()` call's synchronous effect: `factory.create()` is
invoked and tracked in `_factoryCreateOperations` (settlement is a later
step). -/
def Pool.createResource (s : Pool) : Pool :=
  { s with factoryCreateOperations := s.factoryCreateOperations + 1 }

/-- Iterate a state transformer (the source's counted `for` loops). -/
def iterate (f : Pool → Pool) : Nat → Pool → Pool
  | 0, s => s
  | n + 1, s => iterate f n (f s)

/-- `_ensureMinimum`: when not draining, launch `min - _count` creates
(no-op when the shortfall is not positive). -/
def Pool.ensureMinimum (s : Pool) : Pool :=
  if s.draining then s
  else iterate Pool.createResource ((s.config.min : Int) - (s.count : Int)).toNat s

/-- `_destroy(pooledResource)`: invalidate, remove from `_allObjects`, invoke
`factory.destroy` (tracked in `_factoryDestroyOperations`; settlement and the
`factoryDestroyError` event are later steps), then `_ensureMinimum`. -/
def Pool.destroyRes (s : Pool) (r : Nat) : Pool :=
  let s := s.setRes r .INVALID
  let s := { s with allObjects := s.allObjects.erase r,
                    factoryDestroyOperations := s.factoryDestroyOperations + 1 }
  s.ensureMinimum

/-- `_dispatchPooledResourceToNextWaitingClient(pooledResource)`: dequeue a
waiter; if absent or no longer PENDING, return the resource to
`_availableObjects`; otherwise record a loan, allocate, and resolve the
waiter with the resource's `obj`. -/
def Pool.dispatchPooledResourceToNextWaitingClient (s : Pool) (r : Nat) : Pool :=
  match dequeueSlots s.waitingClientsQueue with
  | none => s.addPooledResourceToAvailableObjects r
  | some (rid, slots') =>
      let s := { s with waitingClientsQueue := slots' }
      if s.getReq rid = some .PENDING then
        let s := { s with resourceLoans := setAdd s.resourceLoans r }
        let s := s.setRes r .ALLOCATED
        let s := s.setReq rid .FULFILLED
        { s with resolvedLog := s.resolvedLog ++ [(rid, r)] }
      else s.addPooledResourceToAvailableObjects r

/-- `_dispatchResource()`: shift a resource from `_availableObjects` (if any)
and dispatch it to the next waiting client. -/
def Pool.dispatchResource (s : Pool) : Pool :=
  match s.availableObjects with
  | [] => s
  | r :: rest => Pool.dispatchPooledResourceToNextWaitingClient
      { s with availableObjects := rest } r

/-- One `_testOnBorrow()` call's synchronous effect: shift a resource from
`_availableObjects`, mark it VALIDATION, and add it to
`_testOnBorrowResources` (`factory.validate` settlement is a later step). -/
def Pool.testOnBorrowOnce (s : Pool) : Pool :=
  match s.availableObjects with
  | [] => s
  | r :: rest =>
      let s := { s with availableObjects := rest }
      let s := s.setRes r .VALIDATION
      { s with testOnBorrowResources := setAdd s.testOnBorrowResources r }

/-- `_dispense()`: launch `min(spareResourceCapacity, numWaitingClients -
potentiallyAllocable)` creates, then move resources into borrow-validation
(`testOnBorrow` on) or dispatch them directly (`testOnBorrow` off). -/
def Pool.dispense (s : Pool) : Pool :=
  let numWaitingClients := s.queueLength
  if numWaitingClients < 1 then s
  else
    let resourceShortfall : Int :=
      (numWaitingClients : Int) - (s.potentiallyAllocableResourceCount : Int)
    let actualNumberOfResourcesToCreate :=
      (min s.spareResourceCapacity resourceShortfall).toNat
    let s₁ := iterate Pool.createResource actualNumberOfResourcesToCreate s
    if s₁.config.testOnBorrow then
      let desired : Int :=
        (numWaitingClients : Int) - (s₁.testOnBorrowResources.length : Int)
      let actualTests := (min (s₁.availableObjects.length : Int) desired).toNat
      iterate Pool.testOnBorrowOnce actualTests s₁
    else
      let actualDispatches := min s₁.availableObjects.length numWaitingClients
      iterate Pool.dispatchResource actualDispatches s₁

/-- `PriorityQueue.enqueue` of a fresh `ResourceRequest` (state PENDING). -/
def Pool.enqueueRequest (s : Pool) (p : Option Int) : Pool :=
  let rid := s.nextReqId
  let idx := normPriority s.waitingClientsQueue.length (p.getD 0)
  { s with nextReqId := rid + 1,
           reqState := assocSet s.reqState rid .PENDING,
           waitingClientsQueue := pushAt s.waitingClientsQueue idx rid }

/-- `start()`: no-op when draining or already started; otherwise set the
started flag (evictor scheduling has no synchronous state effect here) and
`_ensureMinimum`. -/
def Pool.start (s : Pool) : Pool :=
  if s.draining ∨ s.started then s
  else Pool.ensureMinimum { s with started := true }

/-- `acquire`'s waiting-clients-cap guard: `spareResourceCapacity < 1 &&
_availableObjects.length < 1 && maxWaitingClients !== undefined &&
_waitingClientsQueue.length >= maxWaitingClients`. -/
def Pool.maxWaitersCheck (s : Pool) : Bool :=
  decide (s.spareResourceCapacity < 1) && decide (s.availableObjects.length < 1) &&
    (match s.config.maxWaitingClients with
     | none => false
     | some m => decide (m ≤ s.queueLength))

/-- The body of `acquire` after the conditional `start()` call. -/
def Pool.acquireStarted (s : Pool) (priority : Option Int) : Except PoolError Nat × Pool :=
  if s.draining then (.error .poolDraining, s)
  else if s.maxWaitersCheck then (.error .maxWaitersExceeded, s)
  else (.ok s.nextReqId, (s.enqueueRequest priority).dispense)

/-- `acquire(priority)`: start if needed; reject while draining; reject when
the waiting-clients cap is hit; otherwise enqueue a fresh request, run
`_dispense`, and return the request's (pending) promise, identified by its
request id. -/
def Pool.acquire (s : Pool) (priority : Option Int) : Except PoolError Nat × Pool :=
  let s := if s.started = false ∧ s.config.autostart = false then s.start else s
  s.acquireStarted priority

/-- `release(resource)`: look up the loan (reject with `ResourceNotInPool` if
absent); delete it, resolve it, `deallocate()` the pooled resource, return it
to `_availableObjects`, and `_dispense`. -/
def Pool.release (s : Pool) (r : Nat) : Except PoolError Unit × Pool :=
  if r ∈ s.resourceLoans then
    let s := { s with resourceLoans := s.resourceLoans.erase r }
    let s := s.setRes r .IDLE
    let s := s.addPooledResourceToAvailableObjects r
    (.ok (), s.dispense)
  else (.error .resourceNotInPool, s)

/-- `destroy(resource)`: like `release` but `_destroy` the pooled resource
instead of returning it to the available deque. -/
def Pool.destroy (s : Pool) (r : Nat) : Except PoolError Unit × Pool :=
  if r ∈ s.resourceLoans then
    let s := { s with resourceLoans := s.resourceLoans.erase r }
    let s := s.setRes r .IDLE
    let s := s.destroyRes r
    (.ok (), s.dispense)
  else (.error .resourceNotInPool, s)

/-- Settlement of one `factory.create` success: wrap the resource (IDLE), add
it to `_allObjects` and `_availableObjects`, drop the tracked operation, then
`_dispense`. -/
def Pool.createSettleOk (s : Pool) : Pool :=
  let n := s.nextResId
  let s := { s with nextResId := n + 1,
                    resState := assocSet s.resState n .IDLE,
                    allObjects := setAdd s.allObjects n }
  let s := s.addPooledResourceToAvailableObjects n
  Pool.dispense { s with factoryCreateOperations := s.factoryCreateOperations - 1 }

/-- Settlement of one `factory.create` failure: drop the tracked operation,
emit `factoryCreateError`, then `_dispense`. -/
def Pool.createSettleFail (s : Pool) : Pool :=
  Pool.dispense { s with factoryCreateOperations := s.factoryCreateOperations - 1,
                         events := s.events ++ [.factoryCreateError] }

/-- Settlement of one tracked `factory.destroy` success. -/
def Pool.destroySettleOk (s : Pool) : Pool :=
  { s with factoryDestroyOperations := s.factoryDestroyOperations - 1 }

/-- Settlement of one tracked `factory.destroy` failure (rejection or destroy
timeout): the operation is dropped and `factoryDestroyError` is emitted. -/
def Pool.destroySettleFail (s : Pool) : Pool :=
  { s with factoryDestroyOperations := s.factoryDestroyOperations - 1,
           events := s.events ++ [.factoryDestroyError] }

/-- Settlement of a `factory.validate` call for a resource in
`_testOnBorrowResources`: remove it from the set; on `false` invalidate,
`_destroy`, and `_dispense`; on `true` dispatch it to the next waiter. -/
def Pool.validationSettle (s : Pool) (r : Nat) (isValid : Bool) : Pool :=
  let s := { s with testOnBorrowResources := s.testOnBorrowResources.erase r }
  if isValid = false then
    Pool.dispense ((s.setRes r .INVALID).destroyRes r)
  else s.dispatchPooledResourceToNextWaitingClient r

/-- A `ResourceRequest`'s timeout firing: reject it if still PENDING
(`Deferred.reject` is a no-op otherwise). -/
def Pool.timeoutFire (s : Pool) (rid : Nat) : Pool :=
  if s.getReq rid = some .PENDING then s.setReq rid .REJECTED else s

/-- The `Queue` timeout-rejection handler splicing a rejected request's node
out of its slot. -/
def Pool.spliceRequest (s : Pool) (rid : Nat) : Pool :=
  { s with waitingClientsQueue := s.waitingClientsQueue.map (fun q => q.erase rid) }

/-- One eviction of an available resource: the eviction iterator removes its
node from `_availableObjects` and the pool `_destroy`s it. -/
def Pool.evictOne (s : Pool) (r : Nat) : Pool :=
  Pool.destroyRes { s with availableObjects := s.availableObjects.erase r } r

/-- `drain()`'s synchronous effect: set the draining flag (the remainder of
`drain` only awaits settled promises). -/
def Pool.drainStart (s : Pool) : Pool := { s with draining := true }

/-- The mutation `clear()` performs once all tracked creates have settled:
`_destroy` every resource in `_availableObjects` (the source iterates the
deque without removing the visited nodes from it). -/
def Pool.clearApply (s : Pool) : Pool :=
  s.availableObjects.foldl Pool.destroyRes s

/-- The constructor (via `createPool`): empty pool with
`priorityRange`-many queue slots (`PriorityQueue` clamps the size to ≥ 1),
started immediately when `autostart` is set. -/
def initPool (cfg : PoolConfig) : Pool :=
  let s : Pool :=
    { config := cfg, draining := false, started := false,
      waitingClientsQueue := List.replicate (max cfg.priorityRange 1) [],
      factoryCreateOperations := 0, factoryDestroyOperations := 0,
      availableObjects := [], testOnBorrowResources := [],
      testOnReturnResources := [], allObjects := [], resourceLoans := [],
      nextResId := 0, nextReqId := 0, resState := [], reqState := [],
      resolvedLog := [], events := [] }
  if cfg.autostart then s.start else s

/-! ## The transition relation

One constructor per public operation or asynchronous completion; each
hypothesis is the scheduling precondition for that completion to exist. -/

/-- A single observable step of the pool.  `allowClear` gates the `clear`
operation so invariants can be stated for operation sequences with or
without it. -/
inductive Step (allowClear : Bool) : Pool → Pool → Prop where
  | acquire (s : Pool) (p : Option Int) : Step allowClear s (s.acquire p).2
  | release (s : Pool) (r : Nat) : Step allowClear s (s.release r).2
  | destroy (s : Pool) (r : Nat) : Step allowClear s (s.destroy r).2
  | startPool (s : Pool) : Step allowClear s s.start
  | createOk (s : Pool) : 0 < s.factoryCreateOperations →
      Step allowClear s s.createSettleOk
  | createFail (s : Pool) : 0 < s.factoryCreateOperations →
      Step allowClear s s.createSettleFail
  | destroyOk (s : Pool) : 0 < s.factoryDestroyOperations →
      Step allowClear s s.destroySettleOk
  | destroyFail (s : Pool) : 0 < s.factoryDestroyOperations →
      Step allowClear s s.destroySettleFail
  | validate (s : Pool) (r : Nat) (isValid : Bool) :
      r ∈ s.testOnBorrowResources → Step allowClear s (s.validationSettle r isValid)
  | timeout (s : Pool) (rid : Nat) : Step allowClear s (s.timeoutFire rid)
  | splice (s : Pool) (rid : Nat) : s.getReq rid = some .REJECTED →
      Step allowClear s (s.spliceRequest rid)
  | evict (s : Pool) (r : Nat) : r ∈ s.availableObjects →
      Step allowClear s (s.evictOne r)
  | drain (s : Pool) : Step allowClear s s.drainStart
  | clear (s : Pool) : allowClear = true → s.factoryCreateOperations = 0 →
      Step allowClear s s.clearApply

/-- Reachability in any number of steps. -/
def Steps (allowClear : Bool) : Pool → Pool → Prop :=
  Relation.ReflTransGen (Step allowClear)

/-! ## Derived predicates and scenario definitions -/

/-- The configuration is well-formed (`PoolOptions` clamping guarantees
`min ≤ max`) and the total resource count respects `max`. -/
def CapacityInv (s : Pool) : Prop :=
  s.config.min ≤ s.config.max ∧ s.count ≤ s.config.max

/-- The multiset of resources currently placed somewhere in the pool:
available, under borrow validation, under return validation, or on loan. -/
def Pool.inPlay (s : Pool) : List Nat :=
  s.availableObjects ++ s.testOnBorrowResources ++
    s.testOnReturnResources ++ s.resourceLoans

/-- Resource bookkeeping invariant: placed ids are distinct, they form
exactly the multiset `_allObjects`, and all of them are below the fresh-id
counter. -/
def ResourceInv (s : Pool) : Prop :=
  s.inPlay.Nodup ∧ s.inPlay.Perm s.allObjects ∧ ∀ r ∈ s.inPlay, r < s.nextResId

/-- All waiting request ids, in slot-major order — which is exactly the
order `PriorityQueue.dequeue` serves them in. -/
def Pool.waitingIds (s : Pool) : List Nat := s.waitingClientsQueue.flatten

/-- Request ids in resolution order. -/
def Pool.logIds (s : Pool) : List Nat := s.resolvedLog.map Prod.fst

/-- Queue bookkeeping invariant for the waiting-clients queue. -/
structure QueueInv (s : Pool) : Prop where
  slotsNe : 0 < s.waitingClientsQueue.length
  nodup : s.waitingIds.Nodup
  inQueueState : ∀ rid ∈ s.waitingIds,
    s.getReq rid = some .PENDING ∨ s.getReq rid = some .REJECTED
  logState : ∀ rid ∈ s.logIds, s.getReq rid = some .FULFILLED
  queueFresh : ∀ rid ∈ s.waitingIds, rid < s.nextReqId
  reqFresh : KeysBelow s.reqState s.nextReqId

/-- `r1` sits strictly earlier than `r2` in slot-major queue order (strictly
earlier slot, or earlier within the same FIFO slot). -/
def AheadOf (s : Pool) (r1 r2 : Nat) : Prop := [r1, r2].Sublist s.waitingIds

/-- The ordering invariant tying the queue positions of two requests to
their resolution order. -/
def OrderInv (r1 r2 : Nat) (s : Pool) : Prop :=
  (AheadOf s r1 r2 ∧ r2 ∉ s.logIds) ∨
  (r1 ∈ s.logIds ∧ r2 ∉ s.logIds) ∨
  (s.getReq r1 = some .REJECTED ∧ r1 ∉ s.logIds) ∨
  [r1, r2].Sublist s.logIds ∨
  (s.getReq r2 = some .REJECTED ∧ r2 ∉ s.logIds)

/-! ## `PoolOptions` normalization of `max` / `min` (source lines 261-264) -/

/-- A fragment of the JavaScript values that may be passed in `Options`. -/
inductive JSVal where
  | num (n : Int)
  | str (s : String)
  | arr
deriving DecidableEq, Repr

/-- JavaScript truthiness of the modelled values (`0` and `''` are falsy;
an array — even empty — is truthy). -/
def JSVal.truthy : JSVal → Bool
  | .num n => n != 0
  | .str s => !s.isEmpty
  | .arr => true

/-- JavaScript `toString()` of the modelled values (`[].toString()` is `""`). -/
def JSVal.toStr : JSVal → String
  | .num n => toString n
  | .str s => s
  | .arr => ""

/-- The leading decimal digits of a character list, as a number; `none` when
the first character is not a digit. -/
def leadingDigits (l : List Char) : Option Nat :=
  match l.takeWhile Char.isDigit with
  | [] => none
  | ds => some (ds.foldl (fun a c => a * 10 + (c.toNat - '0'.toNat)) 0)

/-- JavaScript `parseInt(s, 10)`: skip leading spaces, read an optional sign
and then leading digits; `none` models `NaN`. -/
def jsParseInt (s : String) : Option Int :=
  match s.data.dropWhile (· = ' ') with
  | '-' :: rest => (leadingDigits rest).map (fun n => -(n : Int))
  | '+' :: rest => (leadingDigits rest).map (fun n => (n : Int))
  | l => (leadingDigits l).map (fun n => (n : Int))

/-- JavaScript `v || d` for an optional option value with a numeric default. -/
def jsOr (v : Option JSVal) (d : Int) : JSVal :=
  match v with
  | none => .num d
  | some w => if w.truthy then w else .num d

/-- `this.max = parseInt((opts.max || 1).toString(), 10)` followed by
`this.max = Math.max(isNaN(this.max) ? 1 : this.max, 1)`. -/
def normalizedMax (optsMax : Option JSVal) : Int :=
  max ((jsParseInt (jsOr optsMax 1).toStr).getD 1) 1

/-- `this.min = parseInt((opts.min || 0).toString(), 10)` followed by
`this.min = Math.min(isNaN(this.min) ? 0 : this.min, this.max)`. -/
def normalizedMin (optsMin : Option JSVal) (nmax : Int) : Int :=
  min ((jsParseInt (jsOr optsMin 0).toStr).getD 0) nmax

/-! ## Concrete scenarios used by witnesses and counterexamples -/

/-- A concrete configuration: `max = 1`, `min = 0`, two priority slots. -/
def cfgTwoSlots : PoolConfig :=
  { max := 1, min := 0, maxWaitingClients := none, testOnBorrow := false,
    fifo := true, priorityRange := 2, autostart := true }

/-- `cfgTwoSlots` with a single priority slot. -/
def cfgOneSlot : PoolConfig := { cfgTwoSlots with priorityRange := 1 }

/-- Scenario A step 1: acquire at priority 1 against a fresh `cfgTwoSlots` pool. -/
def scenA1 : Pool := ((initPool cfgTwoSlots).acquire (some 1)).2

/-- Scenario A step 2: a second acquire, at priority 0. -/
def scenA2 : Pool := (scenA1.acquire (some 0)).2

/-- Scenario A step 3: the pending `factory.create` succeeds; the priority-0
waiter is served. -/
def scenA3 : Pool := scenA2.createSettleOk

/-- Scenario A step 4: the borrower releases; the priority-1 waiter is served. -/
def scenA4 : Pool := (scenA3.release 0).2

/-- Scenario B step 1: one acquire against a fresh `cfgOneSlot` pool. -/
def scenB1 : Pool := ((initPool cfgOneSlot).acquire none).2

/-- Scenario B step 2: the pending `factory.create` succeeds; the waiter is
served and holds the loan. -/
def scenB2 : Pool := scenB1.createSettleOk

/-- Scenario B step 3: the borrower releases; the pool holds one idle
resource, no loans and no tests. -/
def scenB3 : Pool := (scenB2.release 0).2

/-! ## Configuration preservation -/

theorem iterate_config {f : Pool → Pool} (hf : ∀ s, (f s).config = s.config) :
    ∀ n s, (iterate f n s).config = s.config := by
  intro n
  induction n with
  | zero => intro s; rfl
  | succ n ih => intro s; rw [iterate, ih, hf]

theorem setRes_config (s : Pool) (r : Nat) (st : PooledResourceState) :
    (s.setRes r st).config = s.config := rfl

theorem setReq_config (s : Pool) (rid : Nat) (st : DeferredState) :
    (s.setReq rid st).config = s.config := rfl

theorem addAvail_config (s : Pool) (r : Nat) :
    (s.addPooledResourceToAvailableObjects r).config = s.config := by
  simp only [Pool.addPooledResourceToAvailableObjects]
  split <;> rfl

theorem createResource_config (s : Pool) : s.createResource.config = s.config := rfl

theorem ensureMinimum_config (s : Pool) : s.ensureMinimum.config = s.config := by
  simp only [Pool.ensureMinimum]
  split
  · rfl
  · exact iterate_config createResource_config _ _

theorem destroyRes_config (s : Pool) (r : Nat) : (s.destroyRes r).config = s.config := by
  simp only [Pool.destroyRes]
  exact ensureMinimum_config _

theorem dispatch_config (s : Pool) (r : Nat) :
    (s.dispatchPooledResourceToNextWaitingClient r).config = s.config := by
  simp only [Pool.dispatchPooledResourceToNextWaitingClient]
  split
  · exact addAvail_config _ _
  · split
    · rfl
    · exact addAvail_config _ _

theorem dispatchResource_config (s : Pool) : s.dispatchResource.config = s.config := by
  simp only [Pool.dispatchResource]
  split
  · rfl
  · exact dispatch_config _ _

theorem testOnBorrowOnce_config (s : Pool) : s.testOnBorrowOnce.config = s.config := by
  simp only [Pool.testOnBorrowOnce]
  split <;> rfl

theorem dispense_config (s : Pool) : s.dispense.config = s.config := by
  simp only [Pool.dispense]
  split
  · rfl
  · split
    · rw [iterate_config testOnBorrowOnce_config, iterate_config createResource_config]
    · rw [iterate_config dispatchResource_config, iterate_config createResource_config]

theorem enqueueRequest_config (s : Pool) (p : Option Int) :
    (s.enqueueRequest p).config = s.config := rfl

theorem start_config (s : Pool) : s.start.config = s.config := by
  simp only [Pool.start]
  split
  · rfl
  · exact ensureMinimum_config _

theorem acquireStarted_config (s : Pool) (p : Option Int) :
    (s.acquireStarted p).2.config = s.config := by
  simp only [Pool.acquireStarted]
  split
  · rfl
  · split
    · rfl
    · rw [dispense_config, enqueueRequest_config]

theorem acquire_config (s : Pool) (p : Option Int) : (s.acquire p).2.config = s.config := by
  simp only [Pool.acquire]
  split
  · rw [acquireStarted_config, start_config]
  · rw [acquireStarted_config]

theorem release_config (s : Pool) (r : Nat) : (s.release r).2.config = s.config := by
  simp only [Pool.release]
  split
  · rw [dispense_config, addAvail_config, setRes_config]
  · rfl

theorem destroy_config (s : Pool) (r : Nat) :
    (s.destroy r).2.config = s.config := by
  simp only [Pool.destroy]
  split
  · rw [dispense_config, destroyRes_config, setRes_config]
  · rfl

theorem createSettleOk_config (s : Pool) : s.createSettleOk.config = s.config := by
  simp only [Pool.createSettleOk]
  rw [dispense_config]
  exact addAvail_config _ _

theorem createSettleFail_config (s : Pool) : s.createSettleFail.config = s.config := by
  simp only [Pool.createSettleFail]
  rw [dispense_config]

theorem destroySettleOk_config (s : Pool) : s.destroySettleOk.config = s.config := rfl

theorem destroySettleFail_config (s : Pool) : s.destroySettleFail.config = s.config := rfl

theorem validationSettle_config (s : Pool) (r : Nat) (v : Bool) :
    (s.validationSettle r v).config = s.config := by
  simp only [Pool.validationSettle]
  split
  · rw [dispense_config, destroyRes_config, setRes_config]
  · exact dispatch_config _ _

theorem timeoutFire_config (s : Pool) (rid : Nat) : (s.timeoutFire rid).config = s.config := by
  simp only [Pool.timeoutFire]
  split <;> rfl

theorem spliceRequest_config (s : Pool) (rid : Nat) :
    (s.spliceRequest rid).config = s.config := rfl

theorem evictOne_config (s : Pool) (r : Nat) : (s.evictOne r).config = s.config := by
  simp only [Pool.evictOne]
  exact destroyRes_config _ _

theorem drainStart_config (s : Pool) : s.drainStart.config = s.config := rfl

theorem clearApply_config (s : Pool) : s.clearApply.config = s.config := by
  simp only [Pool.clearApply]
  generalize s.availableObjects = l
  induction l generalizing s with
  | nil => rfl
  | cons r rest ih => rw [List.foldl_cons, ih, destroyRes_config]

theorem step_config {b : Bool} {s s' : Pool} (h : Step b s s') : s'.config = s.config := by
  cases h with
  | acquire p => exact acquire_config s p
  | release r => exact release_config s r
  | destroy r => exact destroy_config s r
  | startPool => exact start_config s
  | createOk _ => exact createSettleOk_config s
  | createFail _ => exact createSettleFail_config s
  | destroyOk _ => exact destroySettleOk_config s
  | destroyFail _ => exact destroySettleFail_config s
  | validate r v _ => exact validationSettle_config s r v
  | timeout rid => exact timeoutFire_config s rid
  | splice rid _ => exact spliceRequest_config s rid
  | evict r _ => exact evictOne_config s r
  | drain => exact drainStart_config s
  | clear _ _ => exact clearApply_config s

theorem steps_config {b : Bool} {s s' : Pool} (h : Steps b s s') : s'.config = s.config := by
  induction h with
  | refl => rfl
  | tail _ hstep ih => rw [step_config hstep, ih]

theorem initPool_config (cfg : PoolConfig) : (initPool cfg).config = cfg := by
  simp only [initPool]
  split
  · exact start_config _
  · rfl

/-! ## The capacity invariant (claim C1) -/

theorem count_iterate_createResource (k : Nat) (s : Pool) :
    (iterate Pool.createResource k s).count = s.count + k := by
  induction k generalizing s with
  | zero => rfl
  | succ k ih =>
      rw [iterate, ih]
      simp only [Pool.createResource, Pool.count]
      omega

theorem count_iterate_of_eq {f : Pool → Pool} (hf : ∀ s, (f s).count = s.count) :
    ∀ n s, (iterate f n s).count = s.count := by
  intro n
  induction n with
  | zero => intro s; rfl
  | succ n ih => intro s; rw [iterate, ih, hf]

theorem count_setRes (s : Pool) (r : Nat) (st : PooledResourceState) :
    (s.setRes r st).count = s.count := rfl

theorem count_addAvail (s : Pool) (r : Nat) :
    (s.addPooledResourceToAvailableObjects r).count = s.count := by
  simp only [Pool.addPooledResourceToAvailableObjects]
  split <;> rfl

theorem count_dispatch (s : Pool) (r : Nat) :
    (s.dispatchPooledResourceToNextWaitingClient r).count = s.count := by
  simp only [Pool.dispatchPooledResourceToNextWaitingClient]
  split
  · exact count_addAvail _ _
  · split
    · rfl
    · exact count_addAvail _ _

theorem count_dispatchResource (s : Pool) : s.dispatchResource.count = s.count := by
  simp only [Pool.dispatchResource]
  split
  · rfl
  · rw [count_dispatch]; rfl

theorem count_testOnBorrowOnce (s : Pool) : s.testOnBorrowOnce.count = s.count := by
  simp only [Pool.testOnBorrowOnce]
  split <;> rfl

theorem count_enqueueRequest (s : Pool) (p : Option Int) :
    (s.enqueueRequest p).count = s.count := rfl

theorem ensureMinimum_capInv (s : Pool) (h : CapacityInv s) :
    CapacityInv s.ensureMinimum := by
  obtain ⟨hmm, hc⟩ := h
  refine ⟨by rw [ensureMinimum_config]; exact hmm, ?_⟩
  rw [ensureMinimum_config]
  simp only [Pool.ensureMinimum]
  split
  · exact hc
  · rw [count_iterate_createResource]
    omega

theorem dispense_capInv (s : Pool) (h : CapacityInv s) : CapacityInv s.dispense := by
  obtain ⟨hmm, hc⟩ := h
  refine ⟨by rw [dispense_config]; exact hmm, ?_⟩
  rw [dispense_config]
  simp only [Pool.dispense, Pool.spareResourceCapacity]
  split
  · exact hc
  · split
    · rw [count_iterate_of_eq count_testOnBorrowOnce, count_iterate_createResource]
      omega
    · rw [count_iterate_of_eq count_dispatchResource, count_iterate_createResource]
      omega

theorem destroyRes_capInv (s : Pool) (r : Nat) (h : CapacityInv s) :
    CapacityInv (s.destroyRes r) := by
  obtain ⟨hmm, hc⟩ := h
  simp only [Pool.destroyRes]
  apply ensureMinimum_capInv
  refine ⟨hmm, ?_⟩
  have := (List.erase_sublist r s.allObjects).length_le
  simp only [Pool.count, Pool.setRes] at *
  omega

theorem start_capInv (s : Pool) (h : CapacityInv s) : CapacityInv s.start := by
  simp only [Pool.start]
  split
  · exact h
  · exact ensureMinimum_capInv _ h

theorem acquireStarted_capInv (s : Pool) (p : Option Int) (h : CapacityInv s) :
    CapacityInv (s.acquireStarted p).2 := by
  simp only [Pool.acquireStarted]
  split
  · exact h
  · split
    · exact h
    · exact dispense_capInv _ ⟨h.1, by rw [count_enqueueRequest]; exact h.2⟩

theorem acquire_capInv (s : Pool) (p : Option Int) (h : CapacityInv s) :
    CapacityInv (s.acquire p).2 := by
  simp only [Pool.acquire]
  split
  · exact acquireStarted_capInv _ _ (start_capInv _ h)
  · exact acquireStarted_capInv _ _ h

theorem release_capInv (s : Pool) (r : Nat) (h : CapacityInv s) :
    CapacityInv (s.release r).2 := by
  simp only [Pool.release]
  split
  · refine dispense_capInv _ ⟨?_, ?_⟩
    · rw [addAvail_config]; exact h.1
    · rw [addAvail_config, count_addAvail]; exact h.2
  · exact h

theorem destroy_capInv (s : Pool) (r : Nat) (h : CapacityInv s) :
    CapacityInv (s.destroy r).2 := by
  simp only [Pool.destroy]
  split
  · exact dispense_capInv _ (destroyRes_capInv _ _ ⟨h.1, h.2⟩)
  · exact h

theorem setAdd_length_le (l : List Nat) (r : Nat) : (setAdd l r).length ≤ l.length + 1 := by
  simp only [setAdd]
  split <;> simp

theorem addAvail_allObjects (s : Pool) (r : Nat) :
    (s.addPooledResourceToAvailableObjects r).allObjects = s.allObjects := by
  simp only [Pool.addPooledResourceToAvailableObjects]
  split <;> rfl

theorem addAvail_createOps (s : Pool) (r : Nat) :
    (s.addPooledResourceToAvailableObjects r).factoryCreateOperations =
      s.factoryCreateOperations := by
  simp only [Pool.addPooledResourceToAvailableObjects]
  split <;> rfl

theorem createSettleOk_capInv (s : Pool) (hop : 0 < s.factoryCreateOperations)
    (h : CapacityInv s) : CapacityInv s.createSettleOk := by
  simp only [Pool.createSettleOk]
  refine dispense_capInv _ ⟨?_, ?_⟩
  · rw [addAvail_config]; exact h.1
  · have h2 := h.2
    have hs := setAdd_length_le s.allObjects s.nextResId
    simp only [Pool.count, addAvail_allObjects, addAvail_createOps, addAvail_config] at h2 ⊢
    omega

theorem createSettleFail_capInv (s : Pool) (h : CapacityInv s) :
    CapacityInv s.createSettleFail := by
  simp only [Pool.createSettleFail]
  refine dispense_capInv _ ⟨h.1, ?_⟩
  have h2 := h.2
  simp only [Pool.count] at *
  omega

theorem validationSettle_capInv (s : Pool) (r : Nat) (v : Bool) (h : CapacityInv s) :
    CapacityInv (s.validationSettle r v) := by
  simp only [Pool.validationSettle]
  split
  · exact dispense_capInv _ (destroyRes_capInv _ _ ⟨h.1, h.2⟩)
  · refine ⟨by rw [dispatch_config]; exact h.1, ?_⟩
    rw [dispatch_config, count_dispatch]
    exact h.2

theorem clearApply_capInv (s : Pool) (h : CapacityInv s) : CapacityInv s.clearApply := by
  simp only [Pool.clearApply]
  generalize s.availableObjects = l
  induction l generalizing s with
  | nil => exact h
  | cons r rest ih => exact ih _ (destroyRes_capInv _ _ h)

theorem step_capInv {b : Bool} {s s' : Pool} (h : Step b s s') (hinv : CapacityInv s) :
    CapacityInv s' := by
  cases h with
  | acquire p => exact acquire_capInv s p hinv
  | release r => exact release_capInv s r hinv
  | destroy r => exact destroy_capInv s r hinv
  | startPool => exact start_capInv s hinv
  | createOk hop => exact createSettleOk_capInv s hop hinv
  | createFail _ => exact createSettleFail_capInv s hinv
  | destroyOk _ => exact hinv
  | destroyFail _ => exact hinv
  | validate r v _ => exact validationSettle_capInv s r v hinv
  | timeout rid =>
      simp only [Pool.timeoutFire]
      split
      · exact hinv
      · exact hinv
  | splice rid _ => exact hinv
  | evict r _ =>
      simp only [Pool.evictOne]
      refine destroyRes_capInv _ _ ⟨hinv.1, ?_⟩
      have h2 := hinv.2
      simp only [Pool.count] at *
      have := (List.erase_sublist r s.availableObjects).length_le
      omega
  | drain => exact hinv
  | clear _ _ => exact clearApply_capInv s hinv

theorem steps_capInv {b : Bool} {s s' : Pool} (h : Steps b s s') (hinv : CapacityInv s) :
    CapacityInv s' := by
  induction h with
  | refl => exact hinv
  | tail _ hstep ih => exact step_capInv hstep ih

theorem initPool_capInv (cfg : PoolConfig) (hmm : cfg.min ≤ cfg.max) :
    CapacityInv (initPool cfg) := by
  simp only [initPool]
  have hbase : CapacityInv
      { config := cfg, draining := false, started := false,
        waitingClientsQueue := List.replicate (max cfg.priorityRange 1) [],
        factoryCreateOperations := 0, factoryDestroyOperations := 0,
        availableObjects := [], testOnBorrowResources := [],
        testOnReturnResources := [], allObjects := [], resourceLoans := [],
        nextResId := 0, nextReqId := 0, resState := [], reqState := [],
        resolvedLog := [], events := [] } := by
    refine ⟨hmm, ?_⟩
    simp [Pool.count]
  split
  · exact start_capInv _ hbase
  · exact hbase

/-- **C1**: For every pool and every sequence of public operations (acquire,
release, destroy, and the internal creations they trigger — the transition
relation also admits validation, eviction, drain and clear), the total
resource count `allObjects.size + factoryCreateOperations.size` never
exceeds the configured `max` at any observation point between operations. -/
theorem claim_C1 (cfg : PoolConfig) (s : Pool) (hmm : cfg.min ≤ cfg.max)
    (h : Steps true (initPool cfg) s) :
    s.allObjects.length + s.factoryCreateOperations ≤ cfg.max := by
  have hinv := steps_capInv h (initPool_capInv cfg hmm)
  have hcfg : s.config = cfg := by rw [steps_config h, initPool_config]
  have h2 := hinv.2
  simp only [Pool.count, hcfg] at h2
  exact h2

/-- Witness for C1: the concrete four-step scenario A stays within `max = 1`. -/
theorem claim_C1_witness :
    scenA4.allObjects.length + scenA4.factoryCreateOperations ≤ cfgTwoSlots.max := by
  refine claim_C1 cfgTwoSlots scenA4 (by decide) ?_
  have h1 : Steps true (initPool cfgTwoSlots) scenA1 :=
    Relation.ReflTransGen.single (Step.acquire _ (some 1))
  have h2 : Steps true (initPool cfgTwoSlots) scenA2 :=
    h1.tail (Step.acquire _ (some 0))
  have h3 : Steps true (initPool cfgTwoSlots) scenA3 :=
    h2.tail (Step.createOk _ (by decide))
  exact h3.tail (Step.release _ 0)

/-! ## The resource conservation invariant (claim C2) -/

theorem perm_pull {A B C : List Nat} {r : Nat} (h : B.Perm (r :: C)) :
    (A ++ B).Perm (r :: (A ++ C)) :=
  (List.Perm.append_left A h).trans List.perm_middle

theorem perm_pull_left {B B' D : List Nat} {r : Nat} (h : B.Perm (r :: B')) :
    (B ++ D).Perm (r :: (B' ++ D)) :=
  h.append_right D

theorem setAdd_of_not_mem {l : List Nat} {r : Nat} (h : r ∉ l) :
    setAdd l r = l ++ [r] := by
  simp [setAdd, h]

theorem resourceInv_congr {s t : Pool} (h : ResourceInv s)
    (hip : t.inPlay = s.inPlay) (hao : t.allObjects = s.allObjects)
    (hid : s.nextResId ≤ t.nextResId) : ResourceInv t := by
  obtain ⟨h1, h2, h3⟩ := h
  refine ⟨hip ▸ h1, ?_, ?_⟩
  · rw [hip, hao]; exact h2
  · rw [hip]; exact fun r hr => lt_of_lt_of_le (h3 r hr) hid

/-- Re-establish `ResourceInv` from the virtual "resource `r` in hand" view. -/
theorem resourceInv_of_perm {s : Pool} {r : Nat} {base : List Nat}
    (hip : s.inPlay.Perm (r :: base)) (hnd : (r :: base).Nodup)
    (hperm : (r :: base).Perm s.allObjects)
    (hfresh : ∀ x ∈ r :: base, x < s.nextResId) : ResourceInv s := by
  refine ⟨hip.symm.nodup hnd, hip.trans hperm, ?_⟩
  intro x hx
  exact hfresh x (hip.mem_iff.1 hx)

theorem addAvail_inPlay_perm (s : Pool) (r : Nat) :
    (s.addPooledResourceToAvailableObjects r).inPlay.Perm (r :: s.inPlay) := by
  simp only [Pool.addPooledResourceToAvailableObjects]
  split
  · simp only [Pool.inPlay, Pool.setRes, List.append_assoc]
    exact List.perm_middle
  · exact List.Perm.refl _

theorem addAvail_allObjects_eq (s : Pool) (r : Nat) :
    (s.addPooledResourceToAvailableObjects r).allObjects = s.allObjects :=
  addAvail_allObjects s r

theorem addAvail_nextResId (s : Pool) (r : Nat) :
    (s.addPooledResourceToAvailableObjects r).nextResId = s.nextResId := by
  simp only [Pool.addPooledResourceToAvailableObjects]
  split <;> rfl

theorem addAvail_resourceInv {s : Pool} {r : Nat}
    (hnd : (r :: s.inPlay).Nodup) (hperm : (r :: s.inPlay).Perm s.allObjects)
    (hfresh : ∀ x ∈ r :: s.inPlay, x < s.nextResId) :
    ResourceInv (s.addPooledResourceToAvailableObjects r) := by
  refine resourceInv_of_perm (addAvail_inPlay_perm s r) hnd ?_ ?_
  · rw [addAvail_allObjects_eq]; exact hperm
  · rw [addAvail_nextResId]; exact hfresh

theorem dispatch_resourceInv {s : Pool} {r : Nat}
    (hnd : (r :: s.inPlay).Nodup) (hperm : (r :: s.inPlay).Perm s.allObjects)
    (hfresh : ∀ x ∈ r :: s.inPlay, x < s.nextResId) :
    ResourceInv (s.dispatchPooledResourceToNextWaitingClient r) := by
  simp only [Pool.dispatchPooledResourceToNextWaitingClient]
  split
  · exact addAvail_resourceInv hnd hperm hfresh
  · split
    · have hrm : r ∉ s.resourceLoans := by
        have := (List.nodup_cons.1 hnd).1
        intro hc
        exact this (by simp [Pool.inPlay, hc])
      refine resourceInv_of_perm ?_ hnd hperm hfresh
      simp only [Pool.inPlay, Pool.setRes, Pool.setReq, setAdd_of_not_mem hrm,
        List.append_assoc]
      exact perm_pull (perm_pull (perm_pull (List.perm_append_singleton _ _)))
    · exact addAvail_resourceInv hnd hperm hfresh

theorem front_hand {s : Pool} {r : Nat} {rest : List Nat} (h : ResourceInv s)
    (hav : s.availableObjects = r :: rest) :
    (r :: ({ s with availableObjects := rest } : Pool).inPlay).Nodup ∧
      (r :: ({ s with availableObjects := rest } : Pool).inPlay).Perm s.allObjects ∧
      ∀ x ∈ r :: ({ s with availableObjects := rest } : Pool).inPlay, x < s.nextResId := by
  obtain ⟨h1, h2, h3⟩ := h
  have he : s.inPlay = r :: ({ s with availableObjects := rest } : Pool).inPlay := by
    simp only [Pool.inPlay, hav]
    rfl
  rw [he] at h1 h2 h3
  exact ⟨h1, h2, h3⟩

theorem dispatchResource_resourceInv {s : Pool} (h : ResourceInv s) :
    ResourceInv s.dispatchResource := by
  simp only [Pool.dispatchResource]
  split
  · exact h
  · rename_i r rest hav
    obtain ⟨h1, h2, h3⟩ := front_hand h hav
    exact dispatch_resourceInv h1 h2 h3

theorem testOnBorrowOnce_resourceInv {s : Pool} (h : ResourceInv s) :
    ResourceInv s.testOnBorrowOnce := by
  simp only [Pool.testOnBorrowOnce]
  split
  · exact h
  · rename_i r rest hav
    obtain ⟨h1, h2, h3⟩ := front_hand h hav
    have hrm : r ∉ s.testOnBorrowResources := by
      have := (List.nodup_cons.1 h1).1
      intro hc
      exact this (by simp [Pool.inPlay, hc])
    refine resourceInv_of_perm ?_ h1 h2 h3
    simp only [Pool.inPlay, Pool.setRes, setAdd_of_not_mem hrm, List.append_assoc]
    exact perm_pull (perm_pull (List.Perm.refl _))

theorem iterate_resourceInv {f : Pool → Pool}
    (hf : ∀ s, ResourceInv s → ResourceInv (f s)) :
    ∀ n s, ResourceInv s → ResourceInv (iterate f n s) := by
  intro n
  induction n with
  | zero => intro s h; exact h
  | succ n ih => intro s h; exact ih _ (hf _ h)

theorem createResource_resourceInv {s : Pool} (h : ResourceInv s) :
    ResourceInv s.createResource :=
  resourceInv_congr h rfl rfl le_rfl

theorem dispense_resourceInv {s : Pool} (h : ResourceInv s) :
    ResourceInv s.dispense := by
  simp only [Pool.dispense]
  split
  · exact h
  · split
    · exact iterate_resourceInv (fun _ h => testOnBorrowOnce_resourceInv h) _ _
        (iterate_resourceInv (fun _ h => createResource_resourceInv h) _ _ h)
    · exact iterate_resourceInv (fun _ h => dispatchResource_resourceInv h) _ _
        (iterate_resourceInv (fun _ h => createResource_resourceInv h) _ _ h)

theorem ensureMinimum_resourceInv {s : Pool} (h : ResourceInv s) :
    ResourceInv s.ensureMinimum := by
  simp only [Pool.ensureMinimum]
  split
  · exact h
  · exact iterate_resourceInv (fun _ h => createResource_resourceInv h) _ s h

/-- `_destroy` re-establishes the invariant from the "in hand" view: the
destroyed resource is no longer placed anywhere and leaves `_allObjects`. -/
theorem destroyRes_resourceInv {s : Pool} {r : Nat}
    (hnd : (r :: s.inPlay).Nodup) (hperm : (r :: s.inPlay).Perm s.allObjects)
    (hfresh : ∀ x ∈ r :: s.inPlay, x < s.nextResId) :
    ResourceInv (s.destroyRes r) := by
  simp only [Pool.destroyRes]
  apply ensureMinimum_resourceInv
  have hmem : r ∈ s.allObjects := hperm.mem_iff.1 (List.mem_cons_self _ _)
  refine ⟨(List.nodup_cons.1 hnd).2, ?_, ?_⟩
  · have : s.allObjects.Perm (r :: s.allObjects.erase r) := List.perm_cons_erase hmem
    have h2 : (r :: s.inPlay).Perm (r :: s.allObjects.erase r) := hperm.trans this
    exact (List.Perm.cons_inv h2)
  · exact fun x hx => hfresh x (List.mem_cons_of_mem _ hx)

theorem hand_of_perm {s : Pool} {r : Nat} {base : List Nat} (h : ResourceInv s)
    (hp : s.inPlay.Perm (r :: base)) :
    (r :: base).Nodup ∧ (r :: base).Perm s.allObjects ∧
      ∀ x ∈ r :: base, x < s.nextResId := by
  obtain ⟨h1, h2, h3⟩ := h
  exact ⟨hp.nodup h1, hp.symm.trans h2, fun x hx => h3 x (hp.mem_iff.2 hx)⟩

theorem inPlay_erase_loan {s : Pool} {r : Nat} (hr : r ∈ s.resourceLoans) :
    s.inPlay.Perm
      (r :: ({ s with resourceLoans := s.resourceLoans.erase r } : Pool).inPlay) := by
  simp only [Pool.inPlay, List.append_assoc]
  exact perm_pull (perm_pull (perm_pull (List.perm_cons_erase hr)))

theorem inPlay_erase_testOnBorrow {s : Pool} {r : Nat}
    (hr : r ∈ s.testOnBorrowResources) :
    s.inPlay.Perm
      (r :: ({ s with
        testOnBorrowResources := s.testOnBorrowResources.erase r } : Pool).inPlay) := by
  simp only [Pool.inPlay, List.append_assoc]
  exact perm_pull (perm_pull_left (List.perm_cons_erase hr))

theorem inPlay_erase_available {s : Pool} {r : Nat}
    (hr : r ∈ s.availableObjects) :
    s.inPlay.Perm
      (r :: ({ s with
        availableObjects := s.availableObjects.erase r } : Pool).inPlay) := by
  simp only [Pool.inPlay, List.append_assoc]
  exact perm_pull_left (List.perm_cons_erase hr)

theorem release_resourceInv {s : Pool} (r : Nat) (h : ResourceInv s) :
    ResourceInv (s.release r).2 := by
  simp only [Pool.release]
  split
  · rename_i hr
    apply dispense_resourceInv
    obtain ⟨h1, h2, h3⟩ := hand_of_perm h (inPlay_erase_loan hr)
    exact addAvail_resourceInv h1 h2 h3
  · exact h

theorem destroy_resourceInv {s : Pool} (r : Nat) (h : ResourceInv s) :
    ResourceInv (s.destroy r).2 := by
  simp only [Pool.destroy]
  split
  · rename_i hr
    apply dispense_resourceInv
    obtain ⟨h1, h2, h3⟩ := hand_of_perm h (inPlay_erase_loan hr)
    exact destroyRes_resourceInv h1 h2 h3
  · exact h

theorem createSettleOk_resourceInv {s : Pool} (h : ResourceInv s) :
    ResourceInv s.createSettleOk := by
  obtain ⟨h1, h2, h3⟩ := h
  simp only [Pool.createSettleOk]
  apply dispense_resourceInv
  have hnotin : s.nextResId ∉ s.inPlay := fun hc => lt_irrefl _ (h3 _ hc)
  have hnotall : s.nextResId ∉ s.allObjects := fun hc => hnotin (h2.mem_iff.2 hc)
  have hinv₂ : ResourceInv
      (({ s with
          nextResId := s.nextResId + 1,
          resState := assocSet s.resState s.nextResId PooledResourceState.IDLE,
          allObjects := setAdd s.allObjects s.nextResId } :
        Pool).addPooledResourceToAvailableObjects s.nextResId) := by
    apply addAvail_resourceInv
    · exact List.nodup_cons.2 ⟨hnotin, h1⟩
    · show (s.nextResId :: s.inPlay).Perm (setAdd s.allObjects s.nextResId)
      rw [setAdd_of_not_mem hnotall]
      exact (h2.cons _).trans (List.perm_append_singleton _ _).symm
    · intro x hx
      show x < s.nextResId + 1
      rcases List.mem_cons.1 hx with hx | hx
      · subst hx
        exact Nat.lt_succ_self _
      · exact Nat.lt_succ_of_lt (h3 x hx)
  exact resourceInv_congr hinv₂ rfl rfl le_rfl

theorem createSettleFail_resourceInv {s : Pool} (h : ResourceInv s) :
    ResourceInv s.createSettleFail := by
  simp only [Pool.createSettleFail]
  exact dispense_resourceInv (resourceInv_congr h rfl rfl le_rfl)

theorem validationSettle_resourceInv {s : Pool} {r : Nat} (v : Bool)
    (hr : r ∈ s.testOnBorrowResources) (h : ResourceInv s) :
    ResourceInv (s.validationSettle r v) := by
  simp only [Pool.validationSettle]
  obtain ⟨h1, h2, h3⟩ := hand_of_perm h (inPlay_erase_testOnBorrow hr)
  split
  · exact dispense_resourceInv (destroyRes_resourceInv h1 h2 h3)
  · exact dispatch_resourceInv h1 h2 h3

theorem evictOne_resourceInv {s : Pool} {r : Nat} (hr : r ∈ s.availableObjects)
    (h : ResourceInv s) : ResourceInv (s.evictOne r) := by
  simp only [Pool.evictOne]
  obtain ⟨h1, h2, h3⟩ := hand_of_perm h (inPlay_erase_available hr)
  exact destroyRes_resourceInv h1 h2 h3

theorem start_resourceInv {s : Pool} (h : ResourceInv s) : ResourceInv s.start := by
  simp only [Pool.start]
  split
  · exact h
  · exact ensureMinimum_resourceInv (resourceInv_congr h rfl rfl le_rfl)

theorem acquireStarted_resourceInv {s : Pool} (p : Option Int) (h : ResourceInv s) :
    ResourceInv (s.acquireStarted p).2 := by
  simp only [Pool.acquireStarted]
  split
  · exact h
  · split
    · exact h
    · exact dispense_resourceInv (resourceInv_congr h rfl rfl le_rfl)

theorem acquire_resourceInv {s : Pool} (p : Option Int) (h : ResourceInv s) :
    ResourceInv (s.acquire p).2 := by
  simp only [Pool.acquire]
  split
  · exact acquireStarted_resourceInv p (start_resourceInv h)
  · exact acquireStarted_resourceInv p h

theorem step_resourceInv {s s' : Pool} (h : Step false s s') (hinv : ResourceInv s) :
    ResourceInv s' := by
  cases h with
  | acquire p => exact acquire_resourceInv p hinv
  | release r => exact release_resourceInv r hinv
  | destroy r => exact destroy_resourceInv r hinv
  | startPool => exact start_resourceInv hinv
  | createOk _ => exact createSettleOk_resourceInv hinv
  | createFail _ => exact createSettleFail_resourceInv hinv
  | destroyOk _ => exact resourceInv_congr hinv rfl rfl le_rfl
  | destroyFail _ => exact resourceInv_congr hinv rfl rfl le_rfl
  | validate r v hr => exact validationSettle_resourceInv v hr hinv
  | timeout rid =>
      simp only [Pool.timeoutFire]
      split
      · exact resourceInv_congr hinv rfl rfl le_rfl
      · exact hinv
  | splice rid _ => exact resourceInv_congr hinv rfl rfl le_rfl
  | evict r hr => exact evictOne_resourceInv hr hinv
  | drain => exact resourceInv_congr hinv rfl rfl le_rfl
  | clear hc _ => exact absurd hc (by simp)

theorem steps_resourceInv {s s' : Pool} (h : Steps false s s') (hinv : ResourceInv s) :
    ResourceInv s' := by
  induction h with
  | refl => exact hinv
  | tail _ hstep ih => exact step_resourceInv hstep ih

theorem initPool_resourceInv (cfg : PoolConfig) : ResourceInv (initPool cfg) := by
  simp only [initPool]
  have hbase : ResourceInv
      { config := cfg, draining := false, started := false,
        waitingClientsQueue := List.replicate (max cfg.priorityRange 1) [],
        factoryCreateOperations := 0, factoryDestroyOperations := 0,
        availableObjects := [], testOnBorrowResources := [],
        testOnReturnResources := [], allObjects := [], resourceLoans := [],
        nextResId := 0, nextReqId := 0, resState := [], reqState := [],
        resolvedLog := [], events := [] } := by
    refine ⟨List.nodup_nil, List.Perm.refl _, ?_⟩
    intro r hr
    simp [Pool.inPlay] at hr
  split
  · exact start_resourceInv hbase
  · exact hbase

/-- **C2 counterexample**: after a single `acquire` against an empty
(`max = 1, min = 0`) pool, the dispense pass has launched one
`factory.create`, so the `size` getter reports 1 while
`available + borrowed + inTest = 0` — the claimed identity fails at this
observation point between public operations. -/
theorem claim_C2_counterexample :
    Steps true (initPool cfgOneSlot) scenB1 ∧
      scenB1.available + scenB1.borrowed +
        (scenB1.testOnBorrowResources.length + scenB1.testOnReturnResources.length) ≠
          scenB1.size :=
  ⟨Relation.ReflTransGen.single (Step.acquire _ none), by decide⟩

/-- **C2 (amended)**: at every observation point between public operations,
for operation sequences that do not use `clear()`, the metric identity holds
once in-flight creates are also counted:
`available + borrowed + inTest + factoryCreateOperations.size = size`
(equivalently `available + borrowed + inTest = allObjects.size`, since the
`size` getter counts in-flight creates as well). `clear()` is excluded
because it destroys the available resources without removing them from
`_availableObjects`, which breaks the identity. -/
theorem claim_C2_amended (cfg : PoolConfig) (s : Pool)
    (h : Steps false (initPool cfg) s) :
    s.available + s.borrowed +
      (s.testOnBorrowResources.length + s.testOnReturnResources.length) +
      s.factoryCreateOperations = s.size := by
  have hinv := steps_resourceInv h (initPool_resourceInv cfg)
  have hlen := hinv.2.1.length_eq
  simp only [Pool.inPlay, List.length_append] at hlen
  simp only [Pool.available, Pool.borrowed, Pool.size, Pool.count]
  omega

/-- Witness for the amended C2 at the concrete scenario B (one resource on
loan): `0 + 1 + 0 + 0 = 1`. -/
theorem claim_C2_witness :
    scenB2.available + scenB2.borrowed +
      (scenB2.testOnBorrowResources.length + scenB2.testOnReturnResources.length) +
      scenB2.factoryCreateOperations = scenB2.size :=
  claim_C2_amended cfgOneSlot scenB2
    ((Relation.ReflTransGen.single (Step.acquire _ none)).tail
      (Step.createOk _ (by decide)))

/-! ## Claim C4: acquire's immediate-rejection condition -/

theorem maxWaitersCheck_iff (s : Pool) :
    s.maxWaitersCheck = true ↔
      (s.spareResourceCapacity < 1 ∧ s.availableObjects.length < 1 ∧
        ∃ m, s.config.maxWaitingClients = some m ∧ m ≤ s.queueLength) := by
  simp only [Pool.maxWaitersCheck, Bool.and_eq_true, decide_eq_true_eq]
  constructor
  · rintro ⟨⟨h1, h2⟩, h3⟩
    refine ⟨h1, h2, ?_⟩
    cases hm : s.config.maxWaitingClients with
    | none => rw [hm] at h3; exact absurd h3 (by simp)
    | some m =>
        rw [hm] at h3
        exact ⟨m, rfl, by simpa using h3⟩
  · rintro ⟨h1, h2, m, hm, h3⟩
    refine ⟨⟨h1, h2⟩, ?_⟩
    rw [hm]
    simpa using h3

/-- **C4**: `acquire(priority)` returns an immediately rejected promise iff
either (a) the pool is draining — rejecting with `PoolDraining`, checked
first — or (b) `maxWaitingClients` is set, `spareResourceCapacity < 1`,
`availableObjects` is empty, and the waiting queue is at least
`maxWaitingClients` long — rejecting with `MaxWaitersExceeded`; otherwise it
enqueues a fresh `ResourceRequest` and returns its (pending) promise.  The
guards are evaluated on `s₁`, the state after the conditional `start()`. -/
theorem claim_C4 (s : Pool) (p : Option Int) (s₁ : Pool)
    (hs₁ : s₁ = if s.started = false ∧ s.config.autostart = false then s.start else s) :
    ((∃ e, (s.acquire p).1 = Except.error e) ↔
      (s₁.draining = true ∨
        (s₁.spareResourceCapacity < 1 ∧ s₁.availableObjects.length < 1 ∧
          ∃ m, s₁.config.maxWaitingClients = some m ∧ m ≤ s₁.queueLength))) ∧
    (s₁.draining = true → (s.acquire p).1 = Except.error PoolError.poolDraining) ∧
    (s₁.draining = false → s₁.maxWaitersCheck = true →
      (s.acquire p).1 = Except.error PoolError.maxWaitersExceeded) ∧
    (s₁.draining = false → s₁.maxWaitersCheck = false →
      (s.acquire p).1 = Except.ok s₁.nextReqId ∧
        (s.acquire p).2 = (s₁.enqueueRequest p).dispense) := by
  have ha : s.acquire p = s₁.acquireStarted p := by rw [hs₁]; rfl
  rw [ha]
  simp only [Pool.acquireStarted]
  by_cases hd : s₁.draining = true
  · rw [if_pos hd]
    refine ⟨?_, fun _ => rfl, ?_, ?_⟩
    · simp [hd]
    · intro h; rw [h] at hd; cases hd
    · intro h; rw [h] at hd; cases hd
  · rw [if_neg hd]
    by_cases hm : s₁.maxWaitersCheck = true
    · rw [if_pos hm]
      refine ⟨?_, ?_, fun _ _ => rfl, ?_⟩
      · constructor
        · intro _
          exact Or.inr (maxWaitersCheck_iff s₁ |>.1 hm)
        · intro _
          exact ⟨PoolError.maxWaitersExceeded, rfl⟩
      · intro h; exact absurd h hd
      · intro _ hmf; rw [hmf] at hm; cases hm
    · rw [if_neg hm]
      refine ⟨?_, ?_, ?_, fun _ _ => ⟨rfl, rfl⟩⟩
      · constructor
        · rintro ⟨e, he⟩; cases he
        · rintro (h | h)
          · exact absurd h hd
          · exact absurd ((maxWaitersCheck_iff s₁).2 h) hm
      · intro h; exact absurd h hd
      · intro _ hmt; exact absurd hmt hm

/-- Witness for C4: a fresh started pool is neither draining nor at its
waiter cap, so the concrete `acquire` returns the fresh request's promise
after enqueue + dispense. -/
theorem claim_C4_witness :
    ((initPool cfgOneSlot).acquire none).1 = Except.ok (initPool cfgOneSlot).nextReqId ∧
      ((initPool cfgOneSlot).acquire none).2 =
        ((initPool cfgOneSlot).enqueueRequest none).dispense :=
  (claim_C4 (initPool cfgOneSlot) none (initPool cfgOneSlot) (by rfl)).2.2.2
    (by rfl) (by decide)

/-! ## Claim C5: dispatch mechanics -/

theorem addAvail_mem (s : Pool) (r : Nat) :
    r ∈ (s.addPooledResourceToAvailableObjects r).availableObjects := by
  simp only [Pool.addPooledResourceToAvailableObjects]
  split <;> simp

theorem addAvail_resState (s : Pool) (r : Nat) :
    assocGet (s.addPooledResourceToAvailableObjects r).resState r =
      some PooledResourceState.IDLE := by
  simp only [Pool.addPooledResourceToAvailableObjects, Pool.setRes]
  split <;> exact assocGet_set_self _ _ _

/-- **C5**: for every dispatch of a pooled resource to the waiting queue: if
no waiter can be dequeued, or the dequeued waiter is no longer PENDING (it
raced with its timeout), the resource is added back to `availableObjects` in
IDLE state and no resource is lost; otherwise a loan is recorded for the
resource's `obj`, the pooled resource becomes ALLOCATED, and the waiter is
resolved with `obj`. -/
theorem claim_C5 (s : Pool) (r : Nat) :
    (dequeueSlots s.waitingClientsQueue = none →
      s.dispatchPooledResourceToNextWaitingClient r =
          s.addPooledResourceToAvailableObjects r ∧
        r ∈ (s.dispatchPooledResourceToNextWaitingClient r).availableObjects ∧
        assocGet (s.dispatchPooledResourceToNextWaitingClient r).resState r =
          some PooledResourceState.IDLE) ∧
    (∀ rid slots', dequeueSlots s.waitingClientsQueue = some (rid, slots') →
      s.getReq rid ≠ some DeferredState.PENDING →
      r ∈ (s.dispatchPooledResourceToNextWaitingClient r).availableObjects ∧
        assocGet (s.dispatchPooledResourceToNextWaitingClient r).resState r =
          some PooledResourceState.IDLE ∧
        (s.dispatchPooledResourceToNextWaitingClient r).allObjects = s.allObjects) ∧
    (∀ rid slots', dequeueSlots s.waitingClientsQueue = some (rid, slots') →
      s.getReq rid = some DeferredState.PENDING →
      (s.dispatchPooledResourceToNextWaitingClient r).resourceLoans =
          setAdd s.resourceLoans r ∧
        assocGet (s.dispatchPooledResourceToNextWaitingClient r).resState r =
          some PooledResourceState.ALLOCATED ∧
        (s.dispatchPooledResourceToNextWaitingClient r).getReq rid =
          some DeferredState.FULFILLED ∧
        (s.dispatchPooledResourceToNextWaitingClient r).resolvedLog =
          s.resolvedLog ++ [(rid, r)]) := by
  refine ⟨?_, ?_, ?_⟩
  · intro hdq
    simp only [Pool.dispatchPooledResourceToNextWaitingClient, hdq]
    exact ⟨by trivial, addAvail_mem _ _, addAvail_resState _ _⟩
  · intro rid slots' hdq hnp
    simp only [Pool.dispatchPooledResourceToNextWaitingClient, hdq]
    have hnp' : ({ s with waitingClientsQueue := slots' } : Pool).getReq rid ≠
        some DeferredState.PENDING := hnp
    rw [if_neg hnp']
    refine ⟨addAvail_mem _ _, addAvail_resState _ _, ?_⟩
    exact addAvail_allObjects _ _
  · intro rid slots' hdq hp
    simp only [Pool.dispatchPooledResourceToNextWaitingClient, hdq]
    have hp' : ({ s with waitingClientsQueue := slots' } : Pool).getReq rid =
        some DeferredState.PENDING := hp
    rw [if_pos hp']
    refine ⟨rfl, ?_, ?_, rfl⟩
    · exact assocGet_set_self _ _ _
    · exact assocGet_set_self _ _ _

/-- Witness for C5 at the concrete scenario-A queue (two waiters, waiter 1
pending in the priority-0 slot): dispatching resource 0 records the loan,
allocates, and resolves waiter 1. -/
theorem claim_C5_witness :
    (scenA2.dispatchPooledResourceToNextWaitingClient 0).resourceLoans =
        setAdd scenA2.resourceLoans 0 ∧
      assocGet (scenA2.dispatchPooledResourceToNextWaitingClient 0).resState 0 =
        some PooledResourceState.ALLOCATED ∧
      (scenA2.dispatchPooledResourceToNextWaitingClient 0).getReq 1 =
        some DeferredState.FULFILLED ∧
      (scenA2.dispatchPooledResourceToNextWaitingClient 0).resolvedLog =
        scenA2.resolvedLog ++ [(1, 0)] :=
  (claim_C5 scenA2 0).2.2 1 [[], [0]] (by decide) (by decide)

/-! ## Claim C6: how many creates a dispense pass launches -/

theorem createOps_iterate_createResource (k : Nat) (s : Pool) :
    (iterate Pool.createResource k s).factoryCreateOperations =
      s.factoryCreateOperations + k := by
  induction k generalizing s with
  | zero => rfl
  | succ k ih =>
      rw [iterate, ih]
      simp only [Pool.createResource]
      omega

theorem createOps_iterate_of_eq {f : Pool → Pool}
    (hf : ∀ s, (f s).factoryCreateOperations = s.factoryCreateOperations) :
    ∀ n s, (iterate f n s).factoryCreateOperations = s.factoryCreateOperations := by
  intro n
  induction n with
  | zero => intro s; rfl
  | succ n ih => intro s; rw [iterate, ih, hf]

theorem createOps_testOnBorrowOnce (s : Pool) :
    s.testOnBorrowOnce.factoryCreateOperations = s.factoryCreateOperations := by
  simp only [Pool.testOnBorrowOnce]
  split <;> rfl

theorem createOps_dispatch (s : Pool) (r : Nat) :
    (s.dispatchPooledResourceToNextWaitingClient r).factoryCreateOperations =
      s.factoryCreateOperations := by
  simp only [Pool.dispatchPooledResourceToNextWaitingClient]
  split
  · exact addAvail_createOps _ _
  · split
    · rfl
    · exact addAvail_createOps _ _

theorem createOps_dispatchResource (s : Pool) :
    s.dispatchResource.factoryCreateOperations = s.factoryCreateOperations := by
  simp only [Pool.dispatchResource]
  split
  · rfl
  · rw [createOps_dispatch]

/-- **C6**: a dispense pass with waiting clients launches exactly
`min(spareResourceCapacity, numWaitingClients − potentiallyAllocable)`
factory create operations when that quantity is positive, and none
otherwise. -/
theorem claim_C6 (s : Pool) (hW : 0 < s.queueLength) :
    (0 < min s.spareResourceCapacity
        ((s.queueLength : Int) - (s.potentiallyAllocableResourceCount : Int)) →
      s.dispense.factoryCreateOperations = s.factoryCreateOperations +
        (min s.spareResourceCapacity
          ((s.queueLength : Int) - (s.potentiallyAllocableResourceCount : Int))).toNat) ∧
    (min s.spareResourceCapacity
        ((s.queueLength : Int) - (s.potentiallyAllocableResourceCount : Int)) ≤ 0 →
      s.dispense.factoryCreateOperations = s.factoryCreateOperations) := by
  have hbody : s.dispense.factoryCreateOperations = s.factoryCreateOperations +
      (min s.spareResourceCapacity
        ((s.queueLength : Int) - (s.potentiallyAllocableResourceCount : Int))).toNat := by
    simp only [Pool.dispense]
    rw [if_neg (by omega : ¬ s.queueLength < 1)]
    split
    · rw [createOps_iterate_of_eq createOps_testOnBorrowOnce,
        createOps_iterate_createResource]
    · rw [createOps_iterate_of_eq createOps_dispatchResource,
        createOps_iterate_createResource]
  refine ⟨fun _ => hbody, fun hnp => ?_⟩
  rw [hbody, Int.toNat_of_nonpos hnp]
  omega

/-- Witness for C6: one waiter against an empty `max = 1` pool; the shortfall
and spare capacity are both 1, so exactly one create is launched. -/
theorem claim_C6_witness :
    ((initPool cfgOneSlot).enqueueRequest none).dispense.factoryCreateOperations =
      ((initPool cfgOneSlot).enqueueRequest none).factoryCreateOperations + 1 :=
  (claim_C6 ((initPool cfgOneSlot).enqueueRequest none) (by decide)).1 (by decide)

/-! ## Claim C7: release/destroy of an unknown object -/

/-- **C7**: for every object with no active loan (never acquired or already
released), both `release(obj)` and `destroy(obj)` reject with the
`ResourceNotInPool` error and leave the pool state — in particular
`available`, `borrowed`, `size` and the waiting queue — completely
unchanged. -/
theorem claim_C7 (s : Pool) (r : Nat) (h : r ∉ s.resourceLoans) :
    s.release r = (Except.error PoolError.resourceNotInPool, s) ∧
      s.destroy r = (Except.error PoolError.resourceNotInPool, s) := by
  constructor
  · simp only [Pool.release]
    rw [if_neg h]
  · simp only [Pool.destroy]
    rw [if_neg h]

/-- Witness for C7: releasing or destroying the stranger object `5` on the
concrete scenario-B pool (which only loans resource `0`) rejects and changes
nothing. -/
theorem claim_C7_witness :
    scenB2.release 5 = (Except.error PoolError.resourceNotInPool, scenB2) ∧
      scenB2.destroy 5 = (Except.error PoolError.resourceNotInPool, scenB2) :=
  claim_C7 scenB2 5 (by decide)

/-! ## Claim C10: destroy of a borrowed resource settles immediately -/

theorem destroyOps_iterate_of_eq {f : Pool → Pool}
    (hf : ∀ s, (f s).factoryDestroyOperations = s.factoryDestroyOperations) :
    ∀ n s, (iterate f n s).factoryDestroyOperations = s.factoryDestroyOperations := by
  intro n
  induction n with
  | zero => intro s; rfl
  | succ n ih => intro s; rw [iterate, ih, hf]

theorem destroyOps_createResource (s : Pool) :
    s.createResource.factoryDestroyOperations = s.factoryDestroyOperations := rfl

theorem destroyOps_addAvail (s : Pool) (r : Nat) :
    (s.addPooledResourceToAvailableObjects r).factoryDestroyOperations =
      s.factoryDestroyOperations := by
  simp only [Pool.addPooledResourceToAvailableObjects]
  split <;> rfl

theorem destroyOps_testOnBorrowOnce (s : Pool) :
    s.testOnBorrowOnce.factoryDestroyOperations = s.factoryDestroyOperations := by
  simp only [Pool.testOnBorrowOnce]
  split <;> rfl

theorem destroyOps_dispatch (s : Pool) (r : Nat) :
    (s.dispatchPooledResourceToNextWaitingClient r).factoryDestroyOperations =
      s.factoryDestroyOperations := by
  simp only [Pool.dispatchPooledResourceToNextWaitingClient]
  split
  · exact destroyOps_addAvail _ _
  · split
    · rfl
    · exact destroyOps_addAvail _ _

theorem destroyOps_dispatchResource (s : Pool) :
    s.dispatchResource.factoryDestroyOperations = s.factoryDestroyOperations := by
  simp only [Pool.dispatchResource]
  split
  · rfl
  · rw [destroyOps_dispatch]

theorem destroyOps_dispense (s : Pool) :
    s.dispense.factoryDestroyOperations = s.factoryDestroyOperations := by
  simp only [Pool.dispense]
  split
  · rfl
  · split
    · rw [destroyOps_iterate_of_eq destroyOps_testOnBorrowOnce,
        destroyOps_iterate_of_eq destroyOps_createResource]
    · rw [destroyOps_iterate_of_eq destroyOps_dispatchResource,
        destroyOps_iterate_of_eq destroyOps_createResource]

theorem destroyOps_ensureMinimum (s : Pool) :
    s.ensureMinimum.factoryDestroyOperations = s.factoryDestroyOperations := by
  simp only [Pool.ensureMinimum]
  split
  · rfl
  · exact destroyOps_iterate_of_eq destroyOps_createResource _ _

theorem destroyOps_destroyRes (s : Pool) (r : Nat) :
    (s.destroyRes r).factoryDestroyOperations = s.factoryDestroyOperations + 1 := by
  simp only [Pool.destroyRes]
  rw [destroyOps_ensureMinimum]
  rfl

/-- **C10**: destroying a resource with an active loan returns an
already-fulfilled promise: the result is `ok` and is produced without
waiting for `factory.destroy` (which is still tracked as in-flight when
`destroy` returns), and a later `factory.destroy` failure or timeout only
removes the tracked operation and emits `factoryDestroyError` — it never
rejects anything nor changes the resource bookkeeping. -/
theorem claim_C10 (s : Pool) (r : Nat) (h : r ∈ s.resourceLoans) :
    (s.destroy r).1 = Except.ok () ∧
      0 < (s.destroy r).2.factoryDestroyOperations ∧
      ∀ t : Pool,
        t.destroySettleFail.events = t.events ++ [PoolEvent.factoryDestroyError] ∧
          t.destroySettleFail.resourceLoans = t.resourceLoans ∧
          t.destroySettleFail.resolvedLog = t.resolvedLog ∧
          t.destroySettleFail.reqState = t.reqState ∧
          t.destroySettleFail.availableObjects = t.availableObjects ∧
          t.destroySettleFail.allObjects = t.allObjects := by
  refine ⟨?_, ?_, fun t => ⟨rfl, rfl, rfl, rfl, rfl, rfl⟩⟩
  · simp only [Pool.destroy]
    rw [if_pos h]
  · simp only [Pool.destroy]
    rw [if_pos h]
    rw [destroyOps_dispense, destroyOps_destroyRes]
    omega

/-- Witness for C10: destroying the loaned resource 0 of the concrete
scenario-B pool returns `ok` immediately while the `factory.destroy` call is
still in flight. -/
theorem claim_C10_witness :
    (scenB2.destroy 0).1 = Except.ok () ∧
      0 < (scenB2.destroy 0).2.factoryDestroyOperations ∧
      ∀ t : Pool,
        t.destroySettleFail.events = t.events ++ [PoolEvent.factoryDestroyError] ∧
          t.destroySettleFail.resourceLoans = t.resourceLoans ∧
          t.destroySettleFail.resolvedLog = t.resolvedLog ∧
          t.destroySettleFail.reqState = t.reqState ∧
          t.destroySettleFail.availableObjects = t.availableObjects ∧
          t.destroySettleFail.allObjects = t.allObjects :=
  claim_C10 scenB2 0 (by decide)

/-! ## Claim C8: the effect of clear() -/

theorem allObjects_createResource (s : Pool) :
    s.createResource.allObjects = s.allObjects := rfl

theorem allObjects_iterate_of_eq {f : Pool → Pool}
    (hf : ∀ s, (f s).allObjects = s.allObjects) :
    ∀ n s, (iterate f n s).allObjects = s.allObjects := by
  intro n
  induction n with
  | zero => intro s; rfl
  | succ n ih => intro s; rw [iterate, ih, hf]

theorem allObjects_ensureMinimum (s : Pool) :
    s.ensureMinimum.allObjects = s.allObjects := by
  simp only [Pool.ensureMinimum]
  split
  · rfl
  · exact allObjects_iterate_of_eq allObjects_createResource _ _

theorem allObjects_destroyRes (s : Pool) (r : Nat) :
    (s.destroyRes r).allObjects = s.allObjects.erase r := by
  simp only [Pool.destroyRes]
  rw [allObjects_ensureMinimum]
  rfl

theorem foldl_destroyRes_allObjects (l : List Nat) (s : Pool) :
    (l.foldl Pool.destroyRes s).allObjects =
      l.foldl (fun a r => a.erase r) s.allObjects := by
  induction l generalizing s with
  | nil => rfl
  | cons r rest ih => rw [List.foldl_cons, List.foldl_cons, ih, allObjects_destroyRes]

theorem foldl_destroyRes_destroyOps (l : List Nat) (s : Pool) :
    (l.foldl Pool.destroyRes s).factoryDestroyOperations =
      s.factoryDestroyOperations + l.length := by
  induction l generalizing s with
  | nil => rfl
  | cons r rest ih =>
      rw [List.foldl_cons, ih, destroyOps_destroyRes]
      simp only [List.length_cons]
      omega

theorem foldl_erase_of_perm : ∀ (av ao : List Nat), av.Perm ao →
    av.foldl (fun a r => a.erase r) ao = [] := by
  intro av
  induction av with
  | nil =>
      intro ao h
      simp [(List.perm_nil.1 h.symm)]
  | cons r rest ih =>
      intro ao h
      rw [List.foldl_cons]
      apply ih
      have h1 : ao.Perm (r :: rest) := h.symm
      have h2 : ao.erase r |>.Perm ((r :: rest).erase r) := h1.erase r
      rw [List.erase_cons_head] at h2
      exact h2.symm

/-- **C8 counterexample**: `clear()` only destroys *available* resources, so
after a borrower holds the pool's only resource, the mutation performed by a
resolving `clear()` (all creates already settled) leaves `allObjects`
non-empty — the claim fails for pools with outstanding loans. -/
theorem claim_C8_counterexample :
    Steps true (initPool cfgOneSlot) scenB2.clearApply ∧
      scenB2.clearApply.allObjects ≠ [] :=
  ⟨((Relation.ReflTransGen.single (Step.acquire _ none)).tail
      (Step.createOk _ (by decide))).tail (Step.clear _ rfl (by decide)),
    by decide⟩

/-- **C8 (amended)**: provided no resource is on loan or under validation
when `clear()` runs its destroy pass (e.g. after `drain()`), and the
resource bookkeeping invariant holds, the pass destroys every resource:
afterwards `allObjects.size = 0`, and one tracked `factory.destroy`
operation was started per previously available resource (the returned
promise resolves only after all of them settle). -/
theorem claim_C8_amended (s : Pool)
    (hloans : s.resourceLoans = []) (htb : s.testOnBorrowResources = [])
    (htr : s.testOnReturnResources = [])
    (hperm : s.inPlay.Perm s.allObjects) :
    s.clearApply.allObjects = [] ∧
      s.clearApply.factoryDestroyOperations =
        s.factoryDestroyOperations + s.availableObjects.length := by
  constructor
  · simp only [Pool.clearApply]
    rw [foldl_destroyRes_allObjects]
    apply foldl_erase_of_perm
    have := hperm
    simp only [Pool.inPlay, hloans, htb, htr, List.append_nil] at this
    exact this
  · simp only [Pool.clearApply]
    exact foldl_destroyRes_destroyOps _ _

/-- Witness for the amended C8: the concrete scenario-B pool after release
(one idle resource, no loans) is fully emptied by the clear pass. -/
theorem claim_C8_witness :
    scenB3.clearApply.allObjects = [] ∧
      scenB3.clearApply.factoryDestroyOperations =
        scenB3.factoryDestroyOperations + scenB3.availableObjects.length :=
  claim_C8_amended scenB3 (by decide) (by decide) (by decide) (by decide)

/-! ## Claim C9: PoolOptions normalization of max and min -/

/-- **C9**: the constructor parses `max`/`min` as integers from
`(opts.max || 1)` / `(opts.min || 0)`; a non-numeric (NaN) parse yields the
defaults 1 and 0; `max` is clamped to at least 1 and `min` to at most `max`;
absent options give the defaults `max = 1, min = 0`; malformed
`max = []`, `min = 'asf'` give `1, 0`; and `min = 5, max = 3` clamps to
`max = 3, min = 3`. -/
theorem claim_C9 :
    (∀ v, jsParseInt (jsOr v 1).toStr = none → normalizedMax v = 1) ∧
    (∀ v nmax, 0 ≤ nmax → jsParseInt (jsOr v 0).toStr = none →
      normalizedMin v nmax = 0) ∧
    (∀ v, 1 ≤ normalizedMax v) ∧
    (∀ vmin vmax, normalizedMin vmin (normalizedMax vmax) ≤ normalizedMax vmax) ∧
    (normalizedMax none = 1 ∧ normalizedMin none (normalizedMax none) = 0) ∧
    (normalizedMax (some JSVal.arr) = 1 ∧
      normalizedMin (some (JSVal.str "asf")) (normalizedMax (some JSVal.arr)) = 0) ∧
    (normalizedMax (some (JSVal.num 3)) = 3 ∧
      normalizedMin (some (JSVal.num 5)) (normalizedMax (some (JSVal.num 3))) = 3) := by
  refine ⟨?_, ?_, ?_, ?_, ⟨by decide, by decide⟩, ⟨by decide, by decide⟩,
    ⟨by decide, by decide⟩⟩
  · intro v h
    simp [normalizedMax, h]
  · intro v nmax h0 h
    simp only [normalizedMin, h, Option.getD_none]
    omega
  · intro v
    simp only [normalizedMax]
    exact le_max_right _ _
  · intro vmin vmax
    simp only [normalizedMin]
    exact min_le_right _ _

/-- Witness for C9: the general NaN clause applied to the concrete malformed
value `max = 'xyz'`. -/
theorem claim_C9_witness : normalizedMax (some (JSVal.str "xyz")) = 1 :=
  claim_C9.1 (some (JSVal.str "xyz")) (by decide)

/-! ## Claim C3: priority order and FIFO order of request resolution

The key observation is that slot-major order on the flattened queue
(`Pool.waitingIds`) is exactly the order `PriorityQueue.dequeue` serves
requests in: a strictly earlier slot, or an earlier position in the same
FIFO slot, both mean strictly earlier in `waitingIds`. -/

/-- The queue-side observables (`_waitingClientsQueue`, request states, the
resolution log and the request-id counter) are untouched by `f`. -/
def PreservesQueue (f : Pool → Pool) : Prop :=
  ∀ s : Pool, (f s).waitingClientsQueue = s.waitingClientsQueue ∧
    (f s).reqState = s.reqState ∧ (f s).resolvedLog = s.resolvedLog ∧
    (f s).nextReqId = s.nextReqId

theorem sublist_erase_of_not_mem {t l : List Nat} {x : Nat}
    (h : t.Sublist l) (hx : x ∉ t) : t.Sublist (l.erase x) := by
  induction h with
  | slnil => simp
  | cons a h ih =>
      rename_i l₁ l₂
      by_cases hax : a = x
      · subst hax
        rw [List.erase_cons_head]
        exact h
      · rw [List.erase_cons_tail (by simpa using hax)]
        exact (ih hx).cons a
  | cons₂ a h ih =>
      rename_i l₁ l₂
      have hax : a ≠ x := by
        intro hc
        subst hc
        exact hx (List.mem_cons_self _ _)
      rw [List.erase_cons_tail (by simpa using hax)]
      exact (ih (fun hc => hx (List.mem_cons_of_mem _ hc))).cons₂ a

theorem sublist_cons_ne {a b x : Nat} {l : List Nat}
    (h : [a, b].Sublist (x :: l)) (hax : a ≠ x) : [a, b].Sublist l := by
  cases h with
  | cons _ h => exact h
  | cons₂ _ h => exact absurd rfl hax

theorem flatten_map_erase (sl : List (List Nat)) (rid : Nat)
    (hnd : sl.flatten.Nodup) :
    (sl.map (fun q => q.erase rid)).flatten = sl.flatten.erase rid := by
  induction sl with
  | nil => rfl
  | cons q rest ih =>
      simp only [List.map_cons, List.flatten_cons] at *
      obtain ⟨hq, hrest, hdisj⟩ := List.nodup_append.1 hnd
      by_cases hm : rid ∈ q
      · rw [List.erase_append_left _ hm, ih hrest]
        have : rid ∉ rest.flatten := fun hc => hdisj hm hc
        rw [List.erase_of_not_mem this]
      · rw [List.erase_append_right _ hm, List.erase_of_not_mem hm, ih hrest]

theorem preservesQueue_iterate {f : Pool → Pool} (hf : PreservesQueue f) :
    ∀ n, PreservesQueue (iterate f n) := by
  intro n
  induction n with
  | zero => exact fun s => ⟨rfl, rfl, rfl, rfl⟩
  | succ n ih =>
      intro s
      obtain ⟨h1, h2, h3, h4⟩ := ih (f s)
      obtain ⟨g1, g2, g3, g4⟩ := hf s
      exact ⟨by rw [iterate, h1, g1], by rw [iterate, h2, g2],
        by rw [iterate, h3, g3], by rw [iterate, h4, g4]⟩

theorem preservesQueue_createResource : PreservesQueue Pool.createResource :=
  fun _ => ⟨rfl, rfl, rfl, rfl⟩

theorem preservesQueue_setRes (r : Nat) (st : PooledResourceState) :
    PreservesQueue (fun s => s.setRes r st) :=
  fun _ => ⟨rfl, rfl, rfl, rfl⟩

theorem preservesQueue_addAvail (r : Nat) :
    PreservesQueue (fun s => s.addPooledResourceToAvailableObjects r) := by
  intro s
  simp only [Pool.addPooledResourceToAvailableObjects]
  split <;> exact ⟨rfl, rfl, rfl, rfl⟩

theorem preservesQueue_ensureMinimum : PreservesQueue Pool.ensureMinimum := by
  intro s
  simp only [Pool.ensureMinimum]
  split
  · exact ⟨rfl, rfl, rfl, rfl⟩
  · exact preservesQueue_iterate preservesQueue_createResource _ s

theorem preservesQueue_destroyRes (r : Nat) :
    PreservesQueue (fun s => s.destroyRes r) := by
  intro s
  simp only [Pool.destroyRes]
  exact preservesQueue_ensureMinimum _

theorem preservesQueue_testOnBorrowOnce : PreservesQueue Pool.testOnBorrowOnce := by
  intro s
  simp only [Pool.testOnBorrowOnce]
  split <;> exact ⟨rfl, rfl, rfl, rfl⟩

/-- `QueueInv` only inspects the queue-side observables. -/
theorem queueInv_congr {s t : Pool} (h : QueueInv s)
    (hq : t.waitingClientsQueue = s.waitingClientsQueue)
    (hr : t.reqState = s.reqState) (hl : t.resolvedLog = s.resolvedLog)
    (hn : t.nextReqId = s.nextReqId) : QueueInv t := by
  have hw : t.waitingIds = s.waitingIds := by simp [Pool.waitingIds, hq]
  have hlog : t.logIds = s.logIds := by simp [Pool.logIds, hl]
  have hget : ∀ rid, t.getReq rid = s.getReq rid := by
    intro rid; simp [Pool.getReq, hr]
  exact ⟨hq ▸ h.slotsNe, hw ▸ h.nodup,
    fun rid hrid => by rw [hget]; exact h.inQueueState rid (hw ▸ hrid),
    fun rid hrid => by rw [hget]; exact h.logState rid (hlog ▸ hrid),
    fun rid hrid => by rw [hn]; exact h.queueFresh rid (hw ▸ hrid),
    by rw [hr, hn]; exact h.reqFresh⟩

/-- `OrderInv` only inspects the queue-side observables. -/
theorem orderInv_congr {r1 r2 : Nat} {s t : Pool} (h : OrderInv r1 r2 s)
    (hq : t.waitingClientsQueue = s.waitingClientsQueue)
    (hr : t.reqState = s.reqState) (hl : t.resolvedLog = s.resolvedLog) :
    OrderInv r1 r2 t := by
  have hw : t.waitingIds = s.waitingIds := by simp [Pool.waitingIds, hq]
  have hlog : t.logIds = s.logIds := by simp [Pool.logIds, hl]
  have hget : ∀ rid, t.getReq rid = s.getReq rid := by
    intro rid; simp [Pool.getReq, hr]
  simp only [OrderInv, AheadOf, hw, hlog, hget]
  exact h

theorem preservesQueue_queueInv {f : Pool → Pool} (hf : PreservesQueue f)
    {s : Pool} (h : QueueInv s) : QueueInv (f s) := by
  obtain ⟨h1, h2, h3, h4⟩ := hf s
  exact queueInv_congr h h1 h2 h3 h4

theorem preservesQueue_orderInv {f : Pool → Pool} (hf : PreservesQueue f)
    {r1 r2 : Nat} {s : Pool} (h : OrderInv r1 r2 s) : OrderInv r1 r2 (f s) := by
  obtain ⟨h1, h2, h3, _⟩ := hf s
  exact orderInv_congr h h1 h2 h3

theorem assocGet_some_lt {α : Type} {m : List (Nat × α)} {n k : Nat} {v : α}
    (hm : KeysBelow m n) (h : assocGet m k = some v) : k < n := by
  by_contra hc
  rw [assocGet_eq_none_of_keysBelow hm (by omega)] at h
  cases h

theorem mem_insert_middle {rid x : Nat} {a b : List Nat}
    (h : rid ∈ a ++ x :: b) : rid = x ∨ rid ∈ a ++ b := by
  rcases List.mem_append.1 h with h | h
  · exact Or.inr (List.mem_append.2 (Or.inl h))
  · rcases List.mem_cons.1 h with h | h
    · exact Or.inl h
    · exact Or.inr (List.mem_append.2 (Or.inr h))

theorem queueInv_enqueueRequest {s : Pool} (p : Option Int) (h : QueueInv s) :
    QueueInv (s.enqueueRequest p) := by
  obtain ⟨a, b, hab, hab'⟩ := pushAt_join s.waitingClientsQueue
    (normPriority s.waitingClientsQueue.length (p.getD 0)) s.nextReqId
    (normPriority_lt _ _ h.slotsNe)
  have hw : s.waitingIds = a ++ b := hab
  have hw' : (s.enqueueRequest p).waitingIds = a ++ s.nextReqId :: b := hab'
  have hfresh : s.nextReqId ∉ a ++ b := by
    intro hc
    have := h.queueFresh _ (by rw [hw]; exact hc)
    omega
  have hget : ∀ rid, rid ≠ s.nextReqId →
      (s.enqueueRequest p).getReq rid = s.getReq rid := by
    intro rid hne
    exact assocGet_set_ne _ _ _ _ hne
  refine ⟨?_, ?_, ?_, ?_, ?_, ?_⟩
  · show 0 < (pushAt _ _ _).length
    rw [pushAt_length]
    exact h.slotsNe
  · rw [hw']
    exact List.nodup_middle.2
      (List.nodup_cons.2 ⟨hfresh, by rw [← hw]; exact h.nodup⟩)
  · intro rid hrid
    rw [hw'] at hrid
    rcases mem_insert_middle hrid with hrid | hrid
    · subst hrid
      exact Or.inl (assocGet_set_self _ _ _)
    · rw [hget rid (by intro hc; rw [hc] at hrid; exact hfresh hrid)]
      exact h.inQueueState rid (by rw [hw]; exact hrid)
  · intro rid hrid
    have hmem : rid ∈ s.logIds := hrid
    have hful := h.logState rid hmem
    have hlt : rid < s.nextReqId := assocGet_some_lt h.reqFresh hful
    rw [hget rid (by omega)]
    exact hful
  · intro rid hrid
    rw [hw'] at hrid
    show rid < s.nextReqId + 1
    rcases mem_insert_middle hrid with hrid | hrid
    · omega
    · have := h.queueFresh rid (by rw [hw]; exact hrid)
      omega
  · show KeysBelow (assocSet s.reqState s.nextReqId DeferredState.PENDING)
      (s.nextReqId + 1)
    exact keysBelow_set (keysBelow_mono h.reqFresh (by omega)) (by omega)

theorem queueInv_timeoutFire {s : Pool} (rid : Nat) (h : QueueInv s) :
    QueueInv (s.timeoutFire rid) := by
  simp only [Pool.timeoutFire]
  split
  · rename_i hp
    have hlt : rid < s.nextReqId := assocGet_some_lt h.reqFresh hp
    have hget : ∀ x, x ≠ rid →
        (s.setReq rid DeferredState.REJECTED).getReq x = s.getReq x := by
      intro x hx
      exact assocGet_set_ne _ _ _ _ hx
    refine ⟨h.slotsNe, h.nodup, ?_, ?_, h.queueFresh, ?_⟩
    · intro x hx
      by_cases hxr : x = rid
      · subst hxr
        exact Or.inr (assocGet_set_self _ _ _)
      · rw [hget x hxr]
        exact h.inQueueState x hx
    · intro x hx
      have hful := h.logState x hx
      have hxr : x ≠ rid := by
        intro hc
        subst hc
        rw [hful] at hp
        cases hp
      rw [hget x hxr]
      exact hful
    · exact keysBelow_set h.reqFresh hlt
  · exact h

theorem queueInv_spliceRequest {s : Pool} (rid : Nat) (h : QueueInv s) :
    QueueInv (s.spliceRequest rid) := by
  have hw : (s.spliceRequest rid).waitingIds = s.waitingIds.erase rid := by
    show (s.waitingClientsQueue.map (fun q => q.erase rid)).flatten = _
    exact flatten_map_erase _ _ h.nodup
  refine ⟨?_, ?_, ?_, h.logState, ?_, h.reqFresh⟩
  · show 0 < (s.waitingClientsQueue.map _).length
    rw [List.length_map]
    exact h.slotsNe
  · rw [hw]
    exact h.nodup.erase _
  · intro x hx
    rw [hw] at hx
    exact h.inQueueState x (List.mem_of_mem_erase hx)
  · intro x hx
    rw [hw] at hx
    exact h.queueFresh x (List.mem_of_mem_erase hx)

theorem queueInv_dispatch {s : Pool} (r : Nat) (h : QueueInv s) :
    QueueInv (s.dispatchPooledResourceToNextWaitingClient r) := by
  simp only [Pool.dispatchPooledResourceToNextWaitingClient]
  split
  · exact preservesQueue_queueInv (preservesQueue_addAvail r) h
  · rename_i rid slots' hdq
    have hids : s.waitingIds = rid :: slots'.flatten := dequeueSlots_join_some hdq
    have hlen : slots'.length = s.waitingClientsQueue.length := dequeueSlots_length hdq
    have hnd' : (rid :: slots'.flatten).Nodup := by rw [← hids]; exact h.nodup
    have hrid_mem : rid ∈ s.waitingIds := by
      rw [hids]; exact List.mem_cons_self _ _
    have hrid_lt : rid < s.nextReqId := h.queueFresh rid hrid_mem
    have h₂ : QueueInv ({ s with waitingClientsQueue := slots' } : Pool) := by
      refine ⟨?_, ?_, ?_, ?_, ?_, ?_⟩
      · show 0 < slots'.length
        rw [hlen]; exact h.slotsNe
      · exact (List.nodup_cons.1 hnd').2
      · intro x hx
        exact h.inQueueState x (by rw [hids]; exact List.mem_cons_of_mem _ hx)
      · intro x hx
        exact h.logState x hx
      · intro x hx
        exact h.queueFresh x (by rw [hids]; exact List.mem_cons_of_mem _ hx)
      · exact h.reqFresh
    split
    · rename_i hpend
      have hpend' : s.getReq rid = some DeferredState.PENDING := hpend
      refine ⟨?_, ?_, ?_, ?_, ?_, ?_⟩
      · show 0 < slots'.length
        rw [hlen]; exact h.slotsNe
      · exact (List.nodup_cons.1 hnd').2
      · intro x hx
        have hx' : x ∈ slots'.flatten := hx
        have hxr : x ≠ rid := by
          intro hc
          subst hc
          exact (List.nodup_cons.1 hnd').1 hx'
        show assocGet (assocSet s.reqState rid DeferredState.FULFILLED) x =
            some DeferredState.PENDING ∨
          assocGet (assocSet s.reqState rid DeferredState.FULFILLED) x =
            some DeferredState.REJECTED
        rw [assocGet_set_ne _ _ _ _ hxr]
        exact h.inQueueState x (by rw [hids]; exact List.mem_cons_of_mem _ hx')
      · intro x hx
        have hx' : x ∈ s.logIds ++ [rid] := by
          simpa [Pool.logIds] using hx
        show assocGet (assocSet s.reqState rid DeferredState.FULFILLED) x =
          some DeferredState.FULFILLED
        rcases List.mem_append.1 hx' with hx' | hx'
        · have hful := h.logState x hx'
          have hxr : x ≠ rid := by
            intro hc
            subst hc
            rw [hful] at hpend'
            cases hpend'
          rw [assocGet_set_ne _ _ _ _ hxr]
          exact hful
        · have hxr : x = rid := by simpa using hx'
          subst hxr
          exact assocGet_set_self _ _ _
      · intro x hx
        have hx' : x ∈ slots'.flatten := hx
        show x < s.nextReqId
        exact h.queueFresh x (by rw [hids]; exact List.mem_cons_of_mem _ hx')
      · show KeysBelow (assocSet s.reqState rid DeferredState.FULFILLED) s.nextReqId
        exact keysBelow_set h.reqFresh hrid_lt
    · exact preservesQueue_queueInv (preservesQueue_addAvail r) h₂

theorem sublist_insert_middle {t a b : List Nat} {x : Nat}
    (h : t.Sublist (a ++ b)) : t.Sublist (a ++ x :: b) :=
  h.trans ((List.Sublist.refl a).append (List.sublist_cons_self _ _))

theorem orderInv_enqueueRequest {s : Pool} {r1 r2 : Nat} (p : Option Int)
    (hq : QueueInv s) (ho : OrderInv r1 r2 s) :
    OrderInv r1 r2 (s.enqueueRequest p) := by
  obtain ⟨a, b, hab, hab'⟩ := pushAt_join s.waitingClientsQueue
    (normPriority s.waitingClientsQueue.length (p.getD 0)) s.nextReqId
    (normPriority_lt _ _ hq.slotsNe)
  have hw' : (s.enqueueRequest p).waitingIds = a ++ s.nextReqId :: b := hab'
  have hlog : (s.enqueueRequest p).logIds = s.logIds := rfl
  have hget : ∀ x, x ≠ s.nextReqId → (s.enqueueRequest p).getReq x = s.getReq x :=
    fun x hx => assocGet_set_ne _ _ _ _ hx
  rcases ho with ⟨hsub, hr2⟩ | ⟨h1, hr2⟩ | ⟨hrej, h1⟩ | hsub | ⟨hrej, hr2⟩
  · refine Or.inl ⟨?_, ?_⟩
    · show [r1, r2].Sublist (s.enqueueRequest p).waitingIds
      rw [hw']
      exact sublist_insert_middle (hab ▸ hsub)
    · rw [hlog]; exact hr2
  · exact Or.inr (Or.inl ⟨by rw [hlog]; exact h1, by rw [hlog]; exact hr2⟩)
  · refine Or.inr (Or.inr (Or.inl ⟨?_, by rw [hlog]; exact h1⟩))
    have hlt : r1 < s.nextReqId := assocGet_some_lt hq.reqFresh hrej
    rw [hget r1 (by omega)]
    exact hrej
  · exact Or.inr (Or.inr (Or.inr (Or.inl (by rw [hlog]; exact hsub))))
  · refine Or.inr (Or.inr (Or.inr (Or.inr ⟨?_, by rw [hlog]; exact hr2⟩)))
    have hlt : r2 < s.nextReqId := assocGet_some_lt hq.reqFresh hrej
    rw [hget r2 (by omega)]
    exact hrej

theorem orderInv_timeoutFire {s : Pool} {r1 r2 : Nat} (rid : Nat)
    (ho : OrderInv r1 r2 s) : OrderInv r1 r2 (s.timeoutFire rid) := by
  simp only [Pool.timeoutFire]
  split
  · rename_i hp
    have hw : (s.setReq rid DeferredState.REJECTED).waitingIds = s.waitingIds := rfl
    have hlog : (s.setReq rid DeferredState.REJECTED).logIds = s.logIds := rfl
    have hget : ∀ x, x ≠ rid →
        (s.setReq rid DeferredState.REJECTED).getReq x = s.getReq x :=
      fun x hx => assocGet_set_ne _ _ _ _ hx
    rcases ho with ⟨hsub, hr2⟩ | ⟨h1, hr2⟩ | ⟨hrej, h1⟩ | hsub | ⟨hrej, hr2⟩
    · exact Or.inl ⟨hsub, hr2⟩
    · exact Or.inr (Or.inl ⟨h1, hr2⟩)
    · refine Or.inr (Or.inr (Or.inl ⟨?_, h1⟩))
      by_cases hr : r1 = rid
      · subst hr
        rw [hrej] at hp
        cases hp
      · rw [hget r1 hr]
        exact hrej
    · exact Or.inr (Or.inr (Or.inr (Or.inl hsub)))
    · refine Or.inr (Or.inr (Or.inr (Or.inr ⟨?_, hr2⟩)))
      by_cases hr : r2 = rid
      · subst hr
        rw [hrej] at hp
        cases hp
      · rw [hget r2 hr]
        exact hrej
  · exact ho

theorem orderInv_spliceRequest {s : Pool} {r1 r2 : Nat} (rid : Nat)
    (hrid : s.getReq rid = some DeferredState.REJECTED)
    (hq : QueueInv s) (ho : OrderInv r1 r2 s) :
    OrderInv r1 r2 (s.spliceRequest rid) := by
  have hw : (s.spliceRequest rid).waitingIds = s.waitingIds.erase rid := by
    show (s.waitingClientsQueue.map (fun q => q.erase rid)).flatten = _
    exact flatten_map_erase _ _ hq.nodup
  have hlog : (s.spliceRequest rid).logIds = s.logIds := rfl
  have hget : ∀ x, (s.spliceRequest rid).getReq x = s.getReq x := fun _ => rfl
  have hnotlog : ∀ x, s.getReq x = some DeferredState.REJECTED → x ∉ s.logIds := by
    intro x hx hc
    rw [hq.logState x hc] at hx
    cases hx
  rcases ho with ⟨hsub, hr2⟩ | ⟨h1, hr2⟩ | ⟨hrej, h1⟩ | hsub | ⟨hrej, hr2⟩
  · by_cases h1r : r1 = rid
    · subst h1r
      exact Or.inr (Or.inr (Or.inl ⟨by rw [hget]; exact hrid, hnotlog r1 hrid⟩))
    · by_cases h2r : r2 = rid
      · subst h2r
        exact Or.inr (Or.inr (Or.inr (Or.inr ⟨by rw [hget]; exact hrid, hr2⟩)))
      · refine Or.inl ⟨?_, hr2⟩
        show [r1, r2].Sublist (s.spliceRequest rid).waitingIds
        rw [hw]
        exact sublist_erase_of_not_mem hsub (by
          intro hc
          rcases List.mem_cons.1 hc with h | h
          · exact h1r h.symm
          · exact h2r (List.mem_singleton.1 h).symm)
  · exact Or.inr (Or.inl ⟨h1, hr2⟩)
  · exact Or.inr (Or.inr (Or.inl ⟨by rw [hget]; exact hrej, h1⟩))
  · exact Or.inr (Or.inr (Or.inr (Or.inl hsub)))
  · exact Or.inr (Or.inr (Or.inr (Or.inr ⟨by rw [hget]; exact hrej, hr2⟩)))

theorem orderInv_dispatch {s : Pool} {r1 r2 : Nat} (r : Nat) (h12 : r1 ≠ r2)
    (hq : QueueInv s) (ho : OrderInv r1 r2 s) :
    OrderInv r1 r2 (s.dispatchPooledResourceToNextWaitingClient r) := by
  simp only [Pool.dispatchPooledResourceToNextWaitingClient]
  split
  · exact preservesQueue_orderInv (preservesQueue_addAvail r) ho
  · rename_i rid slots' hdq
    have hids : s.waitingIds = rid :: slots'.flatten := dequeueSlots_join_some hdq
    have hnd' : (rid :: slots'.flatten).Nodup := by rw [← hids]; exact hq.nodup
    have hnotlog : ∀ x, s.getReq x ≠ some DeferredState.FULFILLED → x ∉ s.logIds := by
      intro x hx hc
      exact hx (hq.logState x hc)
    split
    · rename_i hpend
      have hpend' : s.getReq rid = some DeferredState.PENDING := hpend
      have hu : OrderInv r1 r2 ({ s with
          waitingClientsQueue := slots',
          reqState := assocSet s.reqState rid DeferredState.FULFILLED,
          resolvedLog := s.resolvedLog ++ [(rid, r)] } : Pool) := by
        have hwu : ({ s with
            waitingClientsQueue := slots',
            reqState := assocSet s.reqState rid DeferredState.FULFILLED,
            resolvedLog := s.resolvedLog ++ [(rid, r)] } : Pool).waitingIds =
          slots'.flatten := rfl
        have hlogu : ({ s with
            waitingClientsQueue := slots',
            reqState := assocSet s.reqState rid DeferredState.FULFILLED,
            resolvedLog := s.resolvedLog ++ [(rid, r)] } : Pool).logIds =
          s.logIds ++ [rid] := by
          simp [Pool.logIds]
        have hgetu : ∀ x, x ≠ rid → ({ s with
            waitingClientsQueue := slots',
            reqState := assocSet s.reqState rid DeferredState.FULFILLED,
            resolvedLog := s.resolvedLog ++ [(rid, r)] } : Pool).getReq x =
          s.getReq x := fun x hx => assocGet_set_ne _ _ _ _ hx
        rcases ho with ⟨hsub, hr2⟩ | ⟨h1, hr2⟩ | ⟨hrej, h1⟩ | hsub | ⟨hrej, hr2⟩
        · rw [show AheadOf s r1 r2 = [r1, r2].Sublist s.waitingIds from rfl,
            hids] at hsub
          by_cases h1r : rid = r1
          · refine Or.inr (Or.inl ⟨?_, ?_⟩)
            · rw [hlogu, h1r]
              simp
            · rw [hlogu]
              simp only [List.mem_append, List.mem_singleton]
              rintro (hc | hc)
              · exact hr2 hc
              · rw [h1r] at hc
                exact h12 hc.symm
          · by_cases h2r : rid = r2
            · exfalso
              have hsub' : [r1, r2].Sublist slots'.flatten :=
                sublist_cons_ne hsub (fun hc => h1r hc.symm)
              have hmem : r2 ∈ slots'.flatten := hsub'.subset (by simp)
              rw [← h2r] at hmem
              exact (List.nodup_cons.1 hnd').1 hmem
            · refine Or.inl ⟨?_, ?_⟩
              · show [r1, r2].Sublist slots'.flatten
                exact sublist_cons_ne hsub (fun hc => h1r hc.symm)
              · rw [hlogu]
                simp only [List.mem_append, List.mem_singleton]
                rintro (hc | hc)
                · exact hr2 hc
                · exact h2r hc.symm
        · by_cases h2r : rid = r2
          · refine Or.inr (Or.inr (Or.inr (Or.inl ?_)))
            rw [hlogu, h2r]
            exact (List.singleton_sublist.2 h1).append (List.Sublist.refl [r2])
          · refine Or.inr (Or.inl ⟨?_, ?_⟩)
            · rw [hlogu]
              exact List.mem_append.2 (Or.inl h1)
            · rw [hlogu]
              simp only [List.mem_append, List.mem_singleton]
              rintro (hc | hc)
              · exact hr2 hc
              · exact h2r hc.symm
        · have h1r : r1 ≠ rid := by
            intro hc
            rw [hc, hpend'] at hrej
            cases hrej
          refine Or.inr (Or.inr (Or.inl ⟨?_, ?_⟩))
          · rw [hgetu r1 h1r]
            exact hrej
          · rw [hlogu]
            simp only [List.mem_append, List.mem_singleton]
            rintro (hc | hc)
            · exact h1 hc
            · exact h1r hc
        · refine Or.inr (Or.inr (Or.inr (Or.inl ?_)))
          rw [hlogu]
          exact hsub.trans (List.sublist_append_left _ _)
        · have h2r : r2 ≠ rid := by
            intro hc
            rw [hc, hpend'] at hrej
            cases hrej
          refine Or.inr (Or.inr (Or.inr (Or.inr ⟨?_, ?_⟩)))
          · rw [hgetu r2 h2r]
            exact hrej
          · rw [hlogu]
            simp only [List.mem_append, List.mem_singleton]
            rintro (hc | hc)
            · exact hr2 hc
            · exact h2r hc
      exact orderInv_congr hu rfl rfl rfl
    · rename_i hnp
      have hnp' : s.getReq rid ≠ some DeferredState.PENDING := hnp
      refine preservesQueue_orderInv (preservesQueue_addAvail r) ?_
      have hw₂ : ({ s with waitingClientsQueue := slots' } : Pool).waitingIds =
          slots'.flatten := rfl
      have hlog₂ : ({ s with waitingClientsQueue := slots' } : Pool).logIds =
          s.logIds := rfl
      have hget₂ : ∀ x, ({ s with waitingClientsQueue := slots' } : Pool).getReq x =
          s.getReq x := fun _ => rfl
      rcases ho with ⟨hsub, hr2⟩ | ⟨h1, hr2⟩ | ⟨hrej, h1⟩ | hsub | ⟨hrej, hr2⟩
      · rw [show AheadOf s r1 r2 = [r1, r2].Sublist s.waitingIds from rfl,
          hids] at hsub
        by_cases h1r : rid = r1
        · have hmem : r1 ∈ s.waitingIds := by
            rw [hids, h1r]
            exact List.mem_cons_self _ _
          have hrej1 : s.getReq r1 = some DeferredState.REJECTED := by
            rcases hq.inQueueState r1 hmem with h | h
            · rw [← h1r] at h
              exact absurd h hnp'
            · exact h
          refine Or.inr (Or.inr (Or.inl ⟨by rw [hget₂]; exact hrej1, ?_⟩))
          rw [hlog₂]
          exact hnotlog r1 (by rw [hrej1]; intro hc; cases hc)
        · by_cases h2r : rid = r2
          · exfalso
            have hsub' : [r1, r2].Sublist slots'.flatten :=
              sublist_cons_ne hsub (fun hc => h1r hc.symm)
            have hmem : r2 ∈ slots'.flatten := hsub'.subset (by simp)
            rw [← h2r] at hmem
            exact (List.nodup_cons.1 hnd').1 hmem
          · refine Or.inl ⟨?_, by rw [hlog₂]; exact hr2⟩
            show [r1, r2].Sublist slots'.flatten
            exact sublist_cons_ne hsub (fun hc => h1r hc.symm)
      · exact Or.inr (Or.inl ⟨by rw [hlog₂]; exact h1, by rw [hlog₂]; exact hr2⟩)
      · exact Or.inr (Or.inr (Or.inl
          ⟨by rw [hget₂]; exact hrej, by rw [hlog₂]; exact h1⟩))
      · exact Or.inr (Or.inr (Or.inr (Or.inl (by rw [hlog₂]; exact hsub))))
      · exact Or.inr (Or.inr (Or.inr (Or.inr
          ⟨by rw [hget₂]; exact hrej, by rw [hlog₂]; exact hr2⟩)))

theorem iterate_pred (P : Pool → Prop) {f : Pool → Pool}
    (hf : ∀ s, P s → P (f s)) : ∀ n s, P s → P (iterate f n s) := by
  intro n
  induction n with
  | zero => exact fun s h => h
  | succ n ih => exact fun s h => ih _ (hf _ h)

theorem preservesQueue_start : PreservesQueue Pool.start := by
  intro s
  simp only [Pool.start]
  split
  · exact ⟨rfl, rfl, rfl, rfl⟩
  · obtain ⟨a, b, c, d⟩ := preservesQueue_ensureMinimum
      ({ s with started := true } : Pool)
    exact ⟨a, b, c, d⟩

theorem preservesQueue_foldl_destroyRes :
    ∀ l : List Nat, PreservesQueue (fun s => l.foldl Pool.destroyRes s) := by
  intro l
  induction l with
  | nil => exact fun s => ⟨rfl, rfl, rfl, rfl⟩
  | cons r rest ih =>
      intro s
      obtain ⟨a, b, c, d⟩ := ih (s.destroyRes r)
      obtain ⟨a', b', c', d'⟩ := preservesQueue_destroyRes r s
      refine ⟨?_, ?_, ?_, ?_⟩
      · show (List.foldl Pool.destroyRes s (r :: rest)).waitingClientsQueue = _
        rw [List.foldl_cons]
        exact a.trans a'
      · show (List.foldl Pool.destroyRes s (r :: rest)).reqState = _
        rw [List.foldl_cons]
        exact b.trans b'
      · show (List.foldl Pool.destroyRes s (r :: rest)).resolvedLog = _
        rw [List.foldl_cons]
        exact c.trans c'
      · show (List.foldl Pool.destroyRes s (r :: rest)).nextReqId = _
        rw [List.foldl_cons]
        exact d.trans d'

theorem queueInv_dispatchResource {s : Pool} (h : QueueInv s) :
    QueueInv s.dispatchResource := by
  simp only [Pool.dispatchResource]
  split
  · exact h
  · exact queueInv_dispatch _ (queueInv_congr h rfl rfl rfl rfl)

theorem queueInv_dispense {s : Pool} (h : QueueInv s) : QueueInv s.dispense := by
  simp only [Pool.dispense]
  split
  · exact h
  · split
    · exact iterate_pred QueueInv
        (fun t ht => preservesQueue_queueInv preservesQueue_testOnBorrowOnce ht) _ _
        (iterate_pred QueueInv
          (fun t ht => preservesQueue_queueInv preservesQueue_createResource ht) _ _ h)
    · exact iterate_pred QueueInv (fun t ht => queueInv_dispatchResource ht) _ _
        (iterate_pred QueueInv
          (fun t ht => preservesQueue_queueInv preservesQueue_createResource ht) _ _ h)

theorem queueInv_acquire {s : Pool} (p : Option Int) (h : QueueInv s) :
    QueueInv (s.acquire p).2 := by
  simp only [Pool.acquire, Pool.acquireStarted]
  have hstep : ∀ t : Pool, QueueInv t →
      QueueInv (if t.draining = true then ((Except.error PoolError.poolDraining :
          Except PoolError Nat), t)
        else if t.maxWaitersCheck = true then
          (Except.error PoolError.maxWaitersExceeded, t)
        else (Except.ok t.nextReqId, (t.enqueueRequest p).dispense)).2 := by
    intro t ht
    split
    · exact ht
    · split
      · exact ht
      · exact queueInv_dispense (queueInv_enqueueRequest p ht)
  split
  · exact hstep _ (preservesQueue_queueInv preservesQueue_start h)
  · exact hstep _ h

theorem queueInv_release {s : Pool} (r : Nat) (h : QueueInv s) :
    QueueInv (s.release r).2 := by
  simp only [Pool.release]
  split
  · exact queueInv_dispense (preservesQueue_queueInv (preservesQueue_addAvail r)
      (preservesQueue_queueInv (preservesQueue_setRes r _)
        (queueInv_congr h rfl rfl rfl rfl)))
  · exact h

theorem queueInv_destroy {s : Pool} (r : Nat) (h : QueueInv s) :
    QueueInv (s.destroy r).2 := by
  simp only [Pool.destroy]
  split
  · exact queueInv_dispense (preservesQueue_queueInv (preservesQueue_destroyRes r)
      (preservesQueue_queueInv (preservesQueue_setRes r _)
        (queueInv_congr h rfl rfl rfl rfl)))
  · exact h

theorem queueInv_createSettleOk {s : Pool} (h : QueueInv s) :
    QueueInv s.createSettleOk := by
  simp only [Pool.createSettleOk]
  apply queueInv_dispense
  have h₂ : QueueInv (({ s with
      nextResId := s.nextResId + 1,
      resState := assocSet s.resState s.nextResId PooledResourceState.IDLE,
      allObjects := setAdd s.allObjects s.nextResId } :
    Pool).addPooledResourceToAvailableObjects s.nextResId) :=
    preservesQueue_queueInv (preservesQueue_addAvail s.nextResId)
      (queueInv_congr h rfl rfl rfl rfl)
  exact queueInv_congr h₂ rfl rfl rfl rfl

theorem queueInv_createSettleFail {s : Pool} (h : QueueInv s) :
    QueueInv s.createSettleFail := by
  simp only [Pool.createSettleFail]
  exact queueInv_dispense (queueInv_congr h rfl rfl rfl rfl)

theorem queueInv_validationSettle {s : Pool} (r : Nat) (v : Bool) (h : QueueInv s) :
    QueueInv (s.validationSettle r v) := by
  simp only [Pool.validationSettle]
  split
  · exact queueInv_dispense (preservesQueue_queueInv (preservesQueue_destroyRes r)
      (preservesQueue_queueInv (preservesQueue_setRes r _)
        (queueInv_congr h rfl rfl rfl rfl)))
  · exact queueInv_dispatch _ (queueInv_congr h rfl rfl rfl rfl)

theorem queueInv_step {b : Bool} {s s' : Pool} (h : Step b s s') (hq : QueueInv s) :
    QueueInv s' := by
  cases h with
  | acquire p => exact queueInv_acquire p hq
  | release r => exact queueInv_release r hq
  | destroy r => exact queueInv_destroy r hq
  | startPool => exact preservesQueue_queueInv preservesQueue_start hq
  | createOk _ => exact queueInv_createSettleOk hq
  | createFail _ => exact queueInv_createSettleFail hq
  | destroyOk _ => exact queueInv_congr hq rfl rfl rfl rfl
  | destroyFail _ => exact queueInv_congr hq rfl rfl rfl rfl
  | validate r v _ => exact queueInv_validationSettle r v hq
  | timeout rid => exact queueInv_timeoutFire rid hq
  | splice rid _ => exact queueInv_spliceRequest rid hq
  | evict r _ =>
      exact preservesQueue_queueInv (preservesQueue_destroyRes r)
        (queueInv_congr hq rfl rfl rfl rfl)
  | drain => exact queueInv_congr hq rfl rfl rfl rfl
  | clear _ _ => exact preservesQueue_queueInv (preservesQueue_foldl_destroyRes _) hq

theorem queueInv_steps {b : Bool} {s s' : Pool} (h : Steps b s s') (hq : QueueInv s) :
    QueueInv s' := by
  induction h with
  | refl => exact hq
  | tail _ hstep ih => exact queueInv_step hstep ih

theorem flatten_replicate_nil (n : Nat) :
    (List.replicate n ([] : List Nat)).flatten = [] := by
  induction n with
  | zero => rfl
  | succ n ih => simp [List.replicate, List.flatten, ih]

theorem queueInv_initPool (cfg : PoolConfig) : QueueInv (initPool cfg) := by
  have hbase : QueueInv
      { config := cfg, draining := false, started := false,
        waitingClientsQueue := List.replicate (max cfg.priorityRange 1) [],
        factoryCreateOperations := 0, factoryDestroyOperations := 0,
        availableObjects := [], testOnBorrowResources := [],
        testOnReturnResources := [], allObjects := [], resourceLoans := [],
        nextResId := 0, nextReqId := 0, resState := [], reqState := [],
        resolvedLog := [], events := [] } := by
    refine ⟨?_, ?_, ?_, ?_, ?_, ?_⟩
    · show 0 < (List.replicate (max cfg.priorityRange 1) ([] : List Nat)).length
      rw [List.length_replicate]
      omega
    · show (List.replicate (max cfg.priorityRange 1) ([] : List Nat)).flatten.Nodup
      rw [flatten_replicate_nil]
      exact List.nodup_nil
    · intro rid hrid
      have hmem : rid ∈ (List.replicate (max cfg.priorityRange 1)
          ([] : List Nat)).flatten := hrid
      rw [flatten_replicate_nil] at hmem
      cases hmem
    · intro rid hrid
      cases hrid
    · intro rid hrid
      have hmem : rid ∈ (List.replicate (max cfg.priorityRange 1)
          ([] : List Nat)).flatten := hrid
      rw [flatten_replicate_nil] at hmem
      cases hmem
    · intro p hp
      cases hp
  simp only [initPool]
  split
  · exact preservesQueue_queueInv preservesQueue_start hbase
  · exact hbase

theorem bothInv_dispatchResource {r1 r2 : Nat} (h12 : r1 ≠ r2) {s : Pool}
    (h : QueueInv s ∧ OrderInv r1 r2 s) :
    QueueInv s.dispatchResource ∧ OrderInv r1 r2 s.dispatchResource := by
  simp only [Pool.dispatchResource]
  split
  · exact h
  · rename_i r rest hav
    have hq₂ : QueueInv ({ s with availableObjects := rest } : Pool) :=
      queueInv_congr h.1 rfl rfl rfl rfl
    have ho₂ : OrderInv r1 r2 ({ s with availableObjects := rest } : Pool) :=
      orderInv_congr h.2 rfl rfl rfl
    exact ⟨queueInv_dispatch _ hq₂, orderInv_dispatch _ h12 hq₂ ho₂⟩

theorem bothInv_dispense {r1 r2 : Nat} (h12 : r1 ≠ r2) {s : Pool}
    (h : QueueInv s ∧ OrderInv r1 r2 s) :
    QueueInv s.dispense ∧ OrderInv r1 r2 s.dispense := by
  simp only [Pool.dispense]
  split
  · exact h
  · split
    · exact iterate_pred (fun t => QueueInv t ∧ OrderInv r1 r2 t)
        (fun t ht => ⟨preservesQueue_queueInv preservesQueue_testOnBorrowOnce ht.1,
          preservesQueue_orderInv preservesQueue_testOnBorrowOnce ht.2⟩) _ _
        (iterate_pred (fun t => QueueInv t ∧ OrderInv r1 r2 t)
          (fun t ht => ⟨preservesQueue_queueInv preservesQueue_createResource ht.1,
            preservesQueue_orderInv preservesQueue_createResource ht.2⟩) _ _ h)
    · exact iterate_pred (fun t => QueueInv t ∧ OrderInv r1 r2 t)
        (fun t ht => bothInv_dispatchResource h12 ht) _ _
        (iterate_pred (fun t => QueueInv t ∧ OrderInv r1 r2 t)
          (fun t ht => ⟨preservesQueue_queueInv preservesQueue_createResource ht.1,
            preservesQueue_orderInv preservesQueue_createResource ht.2⟩) _ _ h)

theorem orderInv_acquire {r1 r2 : Nat} (h12 : r1 ≠ r2) (p : Option Int) {s : Pool}
    (hq : QueueInv s) (ho : OrderInv r1 r2 s) : OrderInv r1 r2 (s.acquire p).2 := by
  simp only [Pool.acquire, Pool.acquireStarted]
  have hstep : ∀ t : Pool, QueueInv t → OrderInv r1 r2 t →
      OrderInv r1 r2 (if t.draining = true then
          ((Except.error PoolError.poolDraining : Except PoolError Nat), t)
        else if t.maxWaitersCheck = true then
          (Except.error PoolError.maxWaitersExceeded, t)
        else (Except.ok t.nextReqId, (t.enqueueRequest p).dispense)).2 := by
    intro t htq hto
    split
    · exact hto
    · split
      · exact hto
      · exact (bothInv_dispense h12 ⟨queueInv_enqueueRequest p htq,
          orderInv_enqueueRequest p htq hto⟩).2
  split
  · exact hstep _ (preservesQueue_queueInv preservesQueue_start hq)
      (preservesQueue_orderInv preservesQueue_start ho)
  · exact hstep _ hq ho

theorem orderInv_release {r1 r2 : Nat} (h12 : r1 ≠ r2) (r : Nat) {s : Pool}
    (hq : QueueInv s) (ho : OrderInv r1 r2 s) : OrderInv r1 r2 (s.release r).2 := by
  simp only [Pool.release]
  split
  · refine (bothInv_dispense h12 ⟨?_, ?_⟩).2
    · exact preservesQueue_queueInv (preservesQueue_addAvail r)
        (preservesQueue_queueInv (preservesQueue_setRes r _)
          (queueInv_congr hq rfl rfl rfl rfl))
    · exact preservesQueue_orderInv (preservesQueue_addAvail r)
        (preservesQueue_orderInv (preservesQueue_setRes r _)
          (orderInv_congr ho rfl rfl rfl))
  · exact ho

theorem orderInv_destroy {r1 r2 : Nat} (h12 : r1 ≠ r2) (r : Nat) {s : Pool}
    (hq : QueueInv s) (ho : OrderInv r1 r2 s) :
    OrderInv r1 r2 (s.destroy r).2 := by
  simp only [Pool.destroy]
  split
  · refine (bothInv_dispense h12 ⟨?_, ?_⟩).2
    · exact preservesQueue_queueInv (preservesQueue_destroyRes r)
        (preservesQueue_queueInv (preservesQueue_setRes r _)
          (queueInv_congr hq rfl rfl rfl rfl))
    · exact preservesQueue_orderInv (preservesQueue_destroyRes r)
        (preservesQueue_orderInv (preservesQueue_setRes r _)
          (orderInv_congr ho rfl rfl rfl))
  · exact ho

theorem orderInv_createSettleOk {r1 r2 : Nat} (h12 : r1 ≠ r2) {s : Pool}
    (hq : QueueInv s) (ho : OrderInv r1 r2 s) : OrderInv r1 r2 s.createSettleOk := by
  simp only [Pool.createSettleOk]
  refine (bothInv_dispense h12 ⟨?_, ?_⟩).2
  · have h₂ : QueueInv (({ s with
        nextResId := s.nextResId + 1,
        resState := assocSet s.resState s.nextResId PooledResourceState.IDLE,
        allObjects := setAdd s.allObjects s.nextResId } :
      Pool).addPooledResourceToAvailableObjects s.nextResId) :=
      preservesQueue_queueInv (preservesQueue_addAvail s.nextResId)
        (queueInv_congr hq rfl rfl rfl rfl)
    exact queueInv_congr h₂ rfl rfl rfl rfl
  · have h₂ : OrderInv r1 r2 (({ s with
        nextResId := s.nextResId + 1,
        resState := assocSet s.resState s.nextResId PooledResourceState.IDLE,
        allObjects := setAdd s.allObjects s.nextResId } :
      Pool).addPooledResourceToAvailableObjects s.nextResId) :=
      preservesQueue_orderInv (preservesQueue_addAvail s.nextResId)
        (orderInv_congr ho rfl rfl rfl)
    exact orderInv_congr h₂ rfl rfl rfl

theorem orderInv_createSettleFail {r1 r2 : Nat} (h12 : r1 ≠ r2) {s : Pool}
    (hq : QueueInv s) (ho : OrderInv r1 r2 s) : OrderInv r1 r2 s.createSettleFail := by
  simp only [Pool.createSettleFail]
  have hq₂ : QueueInv ({ s with
      factoryCreateOperations := s.factoryCreateOperations - 1,
      events := s.events ++ [PoolEvent.factoryCreateError] } : Pool) :=
    queueInv_congr hq rfl rfl rfl rfl
  have ho₂ : OrderInv r1 r2 ({ s with
      factoryCreateOperations := s.factoryCreateOperations - 1,
      events := s.events ++ [PoolEvent.factoryCreateError] } : Pool) :=
    orderInv_congr ho rfl rfl rfl
  exact (bothInv_dispense h12 ⟨hq₂, ho₂⟩).2

theorem orderInv_validationSettle {r1 r2 : Nat} (h12 : r1 ≠ r2) (r : Nat) (v : Bool)
    {s : Pool} (hq : QueueInv s) (ho : OrderInv r1 r2 s) :
    OrderInv r1 r2 (s.validationSettle r v) := by
  simp only [Pool.validationSettle]
  split
  · refine (bothInv_dispense h12 ⟨?_, ?_⟩).2
    · exact preservesQueue_queueInv (preservesQueue_destroyRes r)
        (preservesQueue_queueInv (preservesQueue_setRes r _)
          (queueInv_congr hq rfl rfl rfl rfl))
    · exact preservesQueue_orderInv (preservesQueue_destroyRes r)
        (preservesQueue_orderInv (preservesQueue_setRes r _)
          (orderInv_congr ho rfl rfl rfl))
  · exact orderInv_dispatch _ h12 (queueInv_congr hq rfl rfl rfl rfl)
      (orderInv_congr ho rfl rfl rfl)

theorem orderInv_step {r1 r2 : Nat} (h12 : r1 ≠ r2) {b : Bool} {s s' : Pool}
    (h : Step b s s') (hq : QueueInv s) (ho : OrderInv r1 r2 s) :
    OrderInv r1 r2 s' := by
  cases h with
  | acquire p => exact orderInv_acquire h12 p hq ho
  | release r => exact orderInv_release h12 r hq ho
  | destroy r => exact orderInv_destroy h12 r hq ho
  | startPool => exact preservesQueue_orderInv preservesQueue_start ho
  | createOk _ => exact orderInv_createSettleOk h12 hq ho
  | createFail _ => exact orderInv_createSettleFail h12 hq ho
  | destroyOk _ => exact orderInv_congr ho rfl rfl rfl
  | destroyFail _ => exact orderInv_congr ho rfl rfl rfl
  | validate r v _ => exact orderInv_validationSettle h12 r v hq ho
  | timeout rid => exact orderInv_timeoutFire rid ho
  | splice rid hrid => exact orderInv_spliceRequest rid hrid hq ho
  | evict r _ =>
      exact preservesQueue_orderInv (preservesQueue_destroyRes r)
        (orderInv_congr ho rfl rfl rfl)
  | drain => exact orderInv_congr ho rfl rfl rfl
  | clear _ _ => exact preservesQueue_orderInv (preservesQueue_foldl_destroyRes _) ho

theorem orderInv_steps {r1 r2 : Nat} (h12 : r1 ≠ r2) {b : Bool} {s s' : Pool}
    (h : Steps b s s') (hq : QueueInv s) (ho : OrderInv r1 r2 s) :
    OrderInv r1 r2 s' := by
  induction h with
  | refl => exact ho
  | tail hsteps hstep ih => exact orderInv_step h12 hstep (queueInv_steps hsteps hq) ih

/-- **C3**: if at some reachable state request `r1` sits strictly ahead of
request `r2` in the waiting queue — in a strictly higher-priority (lower
index) slot, or earlier within the same FIFO slot, both captured by
slot-major order on `waitingIds` — then whenever both requests are
eventually resolved, `r1` is resolved strictly before `r2` (they appear in
that order in the resolution log). -/
theorem claim_C3 (cfg : PoolConfig) (s₀ s : Pool) (r1 r2 : Nat) (h12 : r1 ≠ r2)
    (h0 : Steps true (initPool cfg) s₀) (hahead : AheadOf s₀ r1 r2)
    (hs : Steps true s₀ s) (h1 : r1 ∈ s.logIds) (h2 : r2 ∈ s.logIds) :
    [r1, r2].Sublist s.logIds := by
  have hq₀ : QueueInv s₀ := queueInv_steps h0 (queueInv_initPool cfg)
  have hsub₀ : [r1, r2].Sublist s₀.waitingIds := hahead
  have hr2log : r2 ∉ s₀.logIds := by
    intro hc
    have hful := hq₀.logState r2 hc
    have hmem : r2 ∈ s₀.waitingIds := hsub₀.subset (by simp)
    rcases hq₀.inQueueState r2 hmem with h | h <;> rw [hful] at h <;> cases h
  have ho₀ : OrderInv r1 r2 s₀ := Or.inl ⟨hahead, hr2log⟩
  have hofin := orderInv_steps h12 hs hq₀ ho₀
  rcases hofin with ⟨_, hr2⟩ | ⟨_, hr2⟩ | ⟨_, h1n⟩ | hsub | ⟨_, hr2⟩
  · exact absurd h2 hr2
  · exact absurd h2 hr2
  · exact absurd h1 h1n
  · exact hsub
  · exact absurd h2 hr2

/-- Witness for C3: in scenario A, request 1 (priority 0) is enqueued after
request 0 (priority 1) but sits ahead of it in slot-major order; both end up
resolved, and the log `[1, 0]` indeed resolves 1 strictly before 0. -/
theorem claim_C3_witness : [1, 0].Sublist scenA4.logIds := by
  refine claim_C3 cfgTwoSlots scenA2 scenA4 1 0 (by decide) ?_ ?_ ?_
    (by decide) (by decide)
  · exact (Relation.ReflTransGen.single (Step.acquire _ (some 1))).tail
      (Step.acquire _ (some 0))
  · show [1, 0].Sublist scenA2.waitingIds
    exact List.Sublist.refl _
  · exact (Relation.ReflTransGen.single (Step.createOk _ (by decide))).tail
      (Step.release _ 0)
